import Mathlib

/-!
Verification of the MockPilot schema resolution and synthesis engine.

The repository contains three consumers of schema documents:
* `sender.py` — `DataGenerator` synthesizes example payloads from OpenAPI
  fragments, `Sender.extract_schema_fields` flattens a schema to field rows;
* `receiver.py` — `Receiver` builds a pydantic validation model from a flat
  field list and validates inbound payloads;
* `translator.py` — `DocCompliler.parse_schema` flattens schemas into
  documentation tables.

This file gives a shallow embedding of those functions.  JSON values are the
inductive `Value` (Python numbers are modelled exactly as rationals), schema
fragments are the inductive `Frag` (a dict with the recognized keys; an absent
key is `none`), and the random sources used by the generator are an explicit
oracle `RandomSource`.  Recursive Python functions that can diverge are embedded with
an explicit fuel argument; running out of fuel is a distinguished outcome.
-/

/-- A JSON value, as produced and consumed by the Python code.  Numbers that
Python stores as `int` are `vint`, numbers stored as `float` are `vnum`
(modelled exactly as rationals). -/
inductive Value where
  | vnull : Value
  | vstr (s : String) : Value
  | vint (n : Int) : Value
  | vnum (q : Rat) : Value
  | vbool (b : Bool) : Value
  | varr (xs : List Value) : Value
  | vobj (fs : List (String × Value)) : Value

/-- The decimal exponent of a rational: the least `k` with `q * 10^k`
integral, when one exists within `fuel` steps.  A Python `float` is a dyadic
rational, so its exact decimal expansion terminates, and `fuel = q.den`
always suffices: if `den = 2^a * 5^b` then `k = max a b < 2^(max a b) ≤ den`. -/
def decExp : Nat → Rat → Option Nat
  | 0, q => if q.den = 1 then some 0 else none
  | fuel + 1, q => if q.den = 1 then some 0 else (decExp fuel (q * 10)).map (· + 1)

/-- Python `str()` (= `repr()`) of a `float`, under the exact-rational float
model: sign, integer part, decimal point, and the exact fractional digits,
at least one (`str(5.0) = "5.0"`, `str(2.5) = "2.5"`, `str(0.05) = "0.05"`).
Python floats are dyadic, so the expansion always terminates and the
`num/den` fallback is unreachable for values a `float` can hold; the
shortest-round-trip digit selection and the scientific-notation switch that
Python applies beyond `1e16` / below `1e-4` are not modelled (the exact
expansion agrees with Python on the decimal literals in this range). -/
def floatStr (q : Rat) : String :=
  match decExp q.den q with
  | some k =>
    let k' := max k 1
    let m := (q * (10 : Rat) ^ k').num.natAbs
    let ip := m / 10 ^ k'
    let fp := m % 10 ^ k'
    let fs := toString fp
    let pad := String.mk (List.replicate (k' - fs.length) '0')
    (if q < 0 then "-" else "") ++ toString ip ++ "." ++ pad ++ fs
  | none => toString q.num ++ "/" ++ toString q.den

/-- A single-quote character as a string (Python quotes `repr` strings with
it). -/
def pyQuote : String := String.mk [Char.ofNat 39]

mutual
/-- Python `repr()` of a JSON value: `None`/`True`/`False`, ints and floats
as their literals, strings in single quotes (escaping of quotes and
backslashes inside the string is not modelled; generated strings contain
neither), lists in brackets and dicts in braces with their elements
rendered by `repr` again. -/
def reprV : Value → String
  | .vnull => "None"
  | .vstr s => pyQuote ++ s ++ pyQuote
  | .vint n => toString n
  | .vnum q => floatStr q
  | .vbool b => if b then "True" else "False"
  | .varr xs => "[" ++ renderList xs ++ "]"
  | .vobj fs => "\x7b" ++ renderPairs fs ++ "\x7d"

/-- Comma-separated `repr` rendering of the elements of a Python list. -/
def renderList : List Value → String
  | [] => ""
  | [x] => reprV x
  | x :: y :: rest => reprV x ++ ", " ++ renderList (y :: rest)

/-- Comma-separated `repr` rendering of the entries of a Python dict
(string keys in single quotes). -/
def renderPairs : List (String × Value) → String
  | [] => ""
  | (k, v) :: rest =>
      pyQuote ++ k ++ pyQuote ++ ": " ++ reprV v ++
        (if rest.isEmpty then "" else ", ") ++ renderPairs rest
end

/-- Python `str()`, as used by `DataGenerator.generate_array` for the
deduplication keys (`{str(i): i for i in items}`): a string renders as
itself; every other value as its `repr` (`str(list)` and `str(dict)` call
`repr` on the elements, so strings inside containers are quoted). -/
def render : Value → String
  | .vstr s => s
  | v => reprV v

/-! ## Random oracle

Python's `random`, `faker`, `rstr` and `uuid` draws are modelled by an oracle
of pure functions.  `ValidRand` states the guarantees the Python library
functions give: `random.randint a b` and `random.uniform a b` return a value
in `[a, b]` when `a ≤ b`. -/

/-- Oracle supplying all random draws performed by `sender.py`.
`xeger pat = none` models `rstr.xeger` raising on a malformed regular
expression (the `except` branch); `fake tag` stands for the whole family of
`faker`/`uuid`/`os.urandom` format generators; `alnum k` is
`''.join(random.choices(string.ascii_letters + string.digits, k=k))`. -/
structure RandomSource where
  randint : Int → Int → Int
  uniform : Rat → Rat → Rat
  choiceIdx : Nat → Nat
  alnum : Nat → String
  xeger : String → Option String
  fake : String → String

/-- The guarantees Python's `random.randint`/`random.uniform` provide. -/
def ValidRand (r : RandomSource) : Prop :=
  (∀ a b : Int, a ≤ b → a ≤ r.randint a b ∧ r.randint a b ≤ b) ∧
  (∀ a b : Rat, a ≤ b → a ≤ r.uniform a b ∧ r.uniform a b ≤ b)

/-- A concrete valid oracle (always draws the lower end) used by witnesses. -/
def minRand : RandomSource where
  randint := fun a _ => a
  uniform := fun a _ => a
  choiceIdx := fun _ => 0
  alnum := fun k => String.mk (List.replicate k 'a')
  xeger := fun _ => none
  fake := fun _ => "x"

/-! ## Schema fragments

A `Frag` is a parsed JSON/YAML schema fragment (a Python dict) restricted to
the keys the three consumers read.  An absent key is `none`; `required`
defaults to `[]` and `description` to `""` because every read of those keys in
the source uses `.get` with exactly those defaults. -/

/-- The non-recursive keys of a schema fragment. -/
structure FragBase where
  ref : Option String := none
  enumVals : Option (List Value) := none
  type : Option String := none
  minLength : Option Nat := none
  maxLength : Option Nat := none
  pattern : Option String := none
  format : Option String := none
  minimum : Option Rat := none
  maximum : Option Rat := none
  exclusiveMinimum : Option Bool := none
  exclusiveMaximum : Option Bool := none
  multipleOf : Option Rat := none
  minItems : Option Nat := none
  maxItems : Option Nat := none
  uniqueItems : Option Bool := none
  required : List String := []
  description : String := ""
  nullable : Option Bool := none
  exampleVal : Option Value := none

/-- A schema fragment: the scalar keys plus the recursive `items` and
`properties` keys.  `properties = some l` models the key being present with
dict `l` (insertion order preserved); `none` models an absent key, which
the source distinguishes via `'properties' in schema`. -/
inductive Frag where
  | mk (base : FragBase) (items : Option Frag) (properties : Option (List (String × Frag)))

def Frag.base : Frag → FragBase
  | .mk b _ _ => b

def Frag.items : Frag → Option Frag
  | .mk _ i _ => i

def Frag.properties : Frag → Option (List (String × Frag))
  | .mk _ _ p => p

def Frag.ref (f : Frag) : Option String := f.base.ref

def Frag.enumVals (f : Frag) : Option (List Value) := f.base.enumVals

def Frag.type (f : Frag) : Option String := f.base.type

def Frag.minLength (f : Frag) : Option Nat := f.base.minLength

def Frag.maxLength (f : Frag) : Option Nat := f.base.maxLength

def Frag.pattern (f : Frag) : Option String := f.base.pattern

def Frag.format (f : Frag) : Option String := f.base.format

def Frag.minimum (f : Frag) : Option Rat := f.base.minimum

def Frag.maximum (f : Frag) : Option Rat := f.base.maximum

def Frag.exclusiveMinimum (f : Frag) : Option Bool := f.base.exclusiveMinimum

def Frag.exclusiveMaximum (f : Frag) : Option Bool := f.base.exclusiveMaximum

def Frag.multipleOf (f : Frag) : Option Rat := f.base.multipleOf

def Frag.minItems (f : Frag) : Option Nat := f.base.minItems

def Frag.maxItems (f : Frag) : Option Nat := f.base.maxItems

def Frag.uniqueItems (f : Frag) : Option Bool := f.base.uniqueItems

def Frag.required (f : Frag) : List String := f.base.required

def Frag.description (f : Frag) : String := f.base.description

/-- The empty dict `{}`. -/
def emptyFrag : Frag := .mk {} none none

/-- The default item schema `{'type': 'string'}` of
`DataGenerator.generate_array`. -/
def stringFrag : Frag := .mk { type := some "string" } none none

/-- A bare reference fragment `{'$ref': s}`. -/
def refFrag (s : String) : Frag := .mk { ref := some s } none none

/-- Split a character list at `'/'`, modelling Python `str.split("/")`. -/
def splitSlash : List Char → List (List Char)
  | [] => [[]]
  | c :: rest =>
    if c = '/' then [] :: splitSlash rest
    else
      match splitSlash rest with
      | [] => [[c]]
      | h :: t => (c :: h) :: t

/-- `ref.split("/")[-1]`: the last component of a `$ref` pointer. -/
def refTail (s : String) : String := String.mk ((splitSlash s.data).getLastD s.data)

/-- Lookup in a Python dict modelled as an insertion-ordered association
list (`schemas[name]` / `schemas.get(name)`). -/
def lookupS {α : Type} : List (String × α) → String → Option α
  | [], _ => none
  | (k, v) :: rest, key => if k = key then some v else lookupS rest key

/-- The keys of a Python dict modelled as an association list. -/
def keysS {α : Type} (l : List (String × α)) : List String := l.map Prod.fst

/-! ## Numeric helpers -/

/-- Python's `%` on `int` and `float` operands: `x % m = x - m * floor(x / m)`
(the remainder takes the sign of the divisor).  Floats are modelled exactly
as rationals. -/
def qmod (x m : Rat) : Rat := x - m * ⌊x / m⌋

/-- Round-half-to-even to an integer, the tie-breaking used by Python's
built-in `round`. -/
def halfEvenInt (y : Rat) : Int :=
  let n := ⌊y⌋
  let f := y - n
  if f < 1 / 2 then n
  else if 1 / 2 < f then n + 1
  else if Even n then n else n + 1

/-- Python `round(value, 2)`: round to two decimal places, ties to even.
The binary-floating-point representation error of the Python original is not
modelled; arithmetic is exact. -/
def round2 (value : Rat) : Rat := (halfEvenInt (value * 100) : Rat) / 100

/-- The epsilon `1e-6` used to shift exclusive float bounds. -/
def epsQ : Rat := 1 / 1000000

/-! ## sender.py — DataGenerator -/

/-- Errors a `DataGenerator` call can raise (it has no `try` around these),
plus exhaustion of the modelling fuel.  `keyError name` models
`schemas[schema_name]` failing on an unknown `$ref`; `valueError` models
`random.randint(a, b)` with an empty or non-integer range; `indexError`
models `random.choice` of an empty list. -/
inductive GenErr where
  | fuelExhausted : GenErr
  | keyError (name : String) : GenErr
  | valueError : GenErr
  | indexError : GenErr
  deriving DecidableEq

/-- The format tags recognized by the `elif` chain of
`DataGenerator.generate_string`.  Each arm delegates to a `faker` or
`uuid`-based generator, modelled uniformly by the oracle's `fake`. -/
def recognizedFormats : List String :=
  ["email", "uuid", "date", "date-time", "hostname", "ipv4", "ipv6", "uri",
   "url", "password", "byte", "binary", "phone", "phone-number", "uuid1",
   "uuid3", "uuid5", "credit-card", "country-code", "currency", "timezone",
   "postal-code", "zip", "slug", "username", "ipv4-cidr", "ipv6-cidr",
   "mac-address", "iban", "bic", "swift", "hex-color", "rgb-color", "address",
   "street-address", "city", "state", "country", "company-name"]

/-- `DataGenerator.generate_string`.  A present, non-empty `pattern` is fed to
`rstr.xeger`; on success the result is truncated or padded to `length`
(unless `length` is falsy, i.e. `0`); on failure (modelled by
`xeger = none`) control falls through to the format chain, exactly as the
`try/except` in the source does.  A recognized format tag delegates to its
generator; otherwise a random alphanumeric string of length `length` is
produced.  Modelling boundary: the source's `byte` and `binary` arms call
`base64.b64encode` / `os.urandom`, yet `sender.py` never imports `base64`
or `os`, so reaching them would raise `NameError` (and `binary` would
return `bytes`, not `str`); the embedding idealizes both arms as
oracle-supplied strings, and no theorem below exercises these two tags. -/
def generate_string (length : Nat) (pat : Option String) (format_ : Option String)
    (r : RandomSource) : String :=
  let fromFormat : String :=
    match format_ with
    | some f => if f ∈ recognizedFormats then r.fake f else r.alnum length
    | none => r.alnum length
  match pat with
  | some p =>
    if p = "" then fromFormat
    else
      match r.xeger p with
      | some result =>
        if length ≠ 0 ∧ length < result.length then result.take length
        else if length ≠ 0 ∧ result.length < length then
          result ++ r.alnum (length - result.length)
        else result
      | none => fromFormat
  | none => fromFormat

/-- `DataGenerator.generate_integer`: draw `random.randint(min_val, max_val)`
(`valueError` on an empty range, as `randint` raises), then if `multiple_of`
is truthy subtract `value % multiple_of`. -/
def generate_integer (min_val max_val : Int) (multiple_of : Option Rat)
    (r : RandomSource) : Except GenErr Rat :=
  if max_val < min_val then .error .valueError
  else
    let value : Rat := (r.randint min_val max_val : Int)
    .ok (match multiple_of with
         | some m => if m = 0 then value else value - qmod value m
         | none => value)

/-- `DataGenerator.generate_float`: draw `random.uniform(min_val, max_val)`,
quantize down to the nearest multiple if `multiple_of` is truthy, then
`round(value, 2)`. -/
def generate_float (min_val max_val : Rat) (multiple_of : Option Rat)
    (r : RandomSource) : Rat :=
  let value := r.uniform min_val max_val
  let value :=
    match multiple_of with
    | some m => if m = 0 then value else value - qmod value m
    | none => value
  round2 value

/-- The Python value of `generate_integer`: an `int` unless quantization by a
float `multipleOf` turned it into a `float`. -/
def intOrNum (q : Rat) : Value := if q.den = 1 then .vint q.num else .vnum q

/-- Replace the value under key `k` in place, or append a new entry: Python
dict assignment `d[k] = v`. -/
def upsert : List (String × Value) → String → Value → List (String × Value)
  | [], k, v => [(k, v)]
  | (k', v') :: rest, k, v =>
    if k' = k then (k', v) :: rest else (k', v') :: upsert rest k v

/-- `list({str(i): i for i in items}.values())`: deduplicate a list by the
`str` rendering of its elements, keeping dict semantics (first occurrence
fixes the position, the last value wins). -/
def dedupByStr (items : List Value) : List Value :=
  (items.foldl (fun al i => upsert al (render i) i) []).map Prod.snd

/-- The dict-comprehension invariant: distinct keys, and every stored value
renders to its key. -/
def goodAl (al : List (String × Value)) : Prop :=
  (al.map Prod.fst).Nodup ∧ ∀ p ∈ al, render p.2 = p.1

/-- The numeric content Python's `==` compares across `bool`, `int` and
`float` (`bool` is an `int` subclass): `True == 1` and `5 == 5.0` hold. -/
def pyNumVal : Value → Option Rat
  | .vint n => some (n : Rat)
  | .vnum q => some q
  | .vbool b => some (if b then 1 else 0)
  | _ => none

mutual
/-- Python `==` on JSON values: numbers (including `bool`) compare by
numeric value, strings by content, lists pointwise, dicts by key set and
per-key value equality (insertion order is irrelevant to dict `==`). -/
def pyEq : Value → Value → Bool
  | .vnull, .vnull => true
  | .vstr s, .vstr t => decide (s = t)
  | .varr xs, .varr ys => pyEqList xs ys
  | .vobj ps, .vobj qs => decide (ps.length = qs.length) && pyEqLookup ps qs
  | a, b =>
    match pyNumVal a, pyNumVal b with
    | some x, some y => decide (x = y)
    | _, _ => false

/-- Pointwise Python `==` on lists. -/
def pyEqList : List Value → List Value → Bool
  | [], [] => true
  | x :: xs, y :: ys => pyEq x y && pyEqList xs ys
  | _, _ => false

/-- Every entry of the first dict appears in the second with a `==`-equal
value. -/
def pyEqLookup : List (String × Value) → List (String × Value) → Bool
  | [], _ => true
  | (k, v) :: rest, qs =>
    (match lookupS qs k with
     | some w => pyEq v w
     | none => false) && pyEqLookup rest qs
end

/-- The per-property loop of `DataGenerator.generate_object`: generate every
declared property in order with the supplied generator. -/
def genProps (gen : Frag → Except GenErr Value) :
    List (String × Frag) → Except GenErr (List (String × Value))
  | [] => .ok []
  | (prop_name, prop_schema) :: rest => do
    let v ← gen prop_schema
    let tail ← genProps gen rest
    .ok ((prop_name, v) :: tail)

/-- `[DataGenerator.generate_field_data(item_schema, schemas) for _ in
range(size)]`. -/
def genCount (gen : Frag → Except GenErr Value) (item_schema : Frag) :
    Nat → Except GenErr (List Value)
  | 0 => .ok []
  | n + 1 => do
    let v ← gen item_schema
    let rest ← genCount gen item_schema n
    .ok (v :: rest)

/-- `DataGenerator.generate_array`, parameterized by the generator used for
the items (the recursive call at one less fuel). -/
def generate_array (gen : Frag → Except GenErr Value) (field_config : Frag)
    (r : RandomSource) : Except GenErr Value :=
  let min_items : Nat := field_config.minItems.getD 1
  let max_items : Nat := field_config.maxItems.getD (max 10 min_items)
  let unique : Bool := field_config.uniqueItems.getD false
  if max_items < min_items then .error .valueError
  else
    let size : Nat := (r.randint (min_items : Int) (max_items : Int)).toNat
    let item_schema := field_config.items.getD stringFrag
    match genCount gen item_schema size with
    | .error e => .error e
    | .ok items => .ok (.varr (if unique then dedupByStr items else items))

/-- `DataGenerator.generate_object`, parameterized by the generator used for
the properties.  Every declared property is generated (the probabilistic
omission of optional fields is commented out in the source). -/
def generate_object (gen : Frag → Except GenErr Value) (field_config : Frag) :
    Except GenErr Value :=
  (genProps gen (field_config.properties.getD [])).map Value.vobj

/-- The `$ref` handling at the top of `DataGenerator.generate_field_data`:
one level of resolution, `schemas[schema_name]` raising `KeyError` when the
name is absent from the catalog.  There is no visited set here. -/
def resolveRef (schemas : List (String × Frag)) (fc : Frag) : Except GenErr Frag :=
  match fc.ref with
  | some refStr =>
    let schema_name := refTail refStr
    match lookupS schemas schema_name with
    | some f => .ok f
    | none => .error (.keyError schema_name)
  | none => .ok fc

/-- `DataGenerator.generate_field_data`.  Fuel bounds the recursion depth
(Python's call stack); `fuelExhausted` marks a computation that the Python
original would continue (or deepen) past the bound. -/
def generate_field_data (schemas : List (String × Frag)) (r : RandomSource) :
    Nat → Frag → Except GenErr Value
  | 0, _ => .error .fuelExhausted
  | fuel + 1, fc0 =>
    match resolveRef schemas fc0 with
    | .error e => .error e
    | .ok field_config =>
      match field_config.enumVals with
      | some l =>
        match l.get? (r.choiceIdx l.length) with
        | some v => .ok v
        | none => .error .indexError
      | none =>
        let data_type := field_config.type.getD "string"
        if data_type = "string" then
          let min_len : Nat := field_config.minLength.getD 1
          let max_len : Nat := field_config.maxLength.getD (max 10 min_len)
          if max_len < min_len then .error .valueError
          else
            let length := (r.randint (min_len : Int) (max_len : Int)).toNat
            .ok (.vstr (generate_string length field_config.pattern field_config.format r))
        else if data_type = "integer" then
          let lo := field_config.minimum.getD 1
          let hi := field_config.maximum.getD 100
          let lo := if field_config.exclusiveMinimum = some true then lo + 1 else lo
          let hi := if field_config.exclusiveMaximum = some true then hi - 1 else hi
          if lo.den = 1 ∧ hi.den = 1 then
            match generate_integer lo.num hi.num field_config.multipleOf r with
            | .ok q => .ok (intOrNum q)
            | .error e => .error e
          else .error .valueError
        else if data_type = "number" ∨ data_type = "float" then
          let lo := field_config.minimum.getD 1
          let hi := field_config.maximum.getD 100
          let lo := if field_config.exclusiveMinimum = some true then lo + epsQ else lo
          let hi := if field_config.exclusiveMaximum = some true then hi - epsQ else hi
          .ok (.vnum (generate_float lo hi field_config.multipleOf r))
        else if data_type = "boolean" then
          .ok (.vbool (r.choiceIdx 2 == 0))
        else if data_type = "array" then
          generate_array (fun f => generate_field_data schemas r fuel f) field_config r
        else if data_type = "object" then
          generate_object (fun f => generate_field_data schemas r fuel f) field_config
        else
          .ok (.vstr (generate_string 10 none none r))

/-! ## receiver.py — Receiver

The receiver's config carries a flat list of field descriptors
(`name`, `dataType`, `parentProperty`, `required`, `minValue`, `maxValue`,
`description`); `Receiver._build_nested_model` turns it into a pydantic model
and FastAPI validates each inbound payload against that model. -/

/-- One entry of `bodyFields`.  `name`, `dataType` and `parentProperty` are
accessed with `field[...]` (required keys); the rest via `.get`. -/
structure FieldDescr where
  name : String
  dataType : String
  parentProperty : Option String
  required : Bool := false
  minValue : Option Rat := none
  maxValue : Option Rat := none
  description : String := ""

/-- The Python type produced by `Receiver.parse_type`:  `str`, `float`/`int`
(possibly `Annotated` with `Field(ge=..., le=...)`), `bool`, `list`, `dict`. -/
inductive PType where
  | pStr : PType
  | pFloat (ge le : Option Rat) : PType
  | pInt (ge le : Option Rat) : PType
  | pBool : PType
  | pList : PType
  | pDict : PType

/-- `Receiver.parse_type`: map a JSON data type to a Python type, adding
`ge`/`le` constraints when `minValue`/`maxValue` are present.  An
unrecognized `dataType` raises `Exception` — modelled as `Except.error`,
preserving the source's `propety` typo.  Modelling boundary: the source
message interpolates the repr of the whole field dict (`f"... in field
{field}!"`); the embedding abstracts that dict into a `FieldDescr` (which
cannot reproduce exactly the keys present in the config file), so it
interpolates the field's name instead — the theorems below rest on the
fact that an unrecognized tag raises, for which the message text is
immaterial. -/
def parse_type (dataType : String) (field : FieldDescr) : Except String PType :=
  if dataType = "string" then .ok .pStr
  else if dataType = "float" then
    if field.minValue.isSome ∨ field.maxValue.isSome then
      .ok (.pFloat field.minValue field.maxValue)
    else .ok (.pFloat none none)
  else if dataType = "integer" then
    if field.minValue.isSome ∨ field.maxValue.isSome then
      .ok (.pInt field.minValue field.maxValue)
    else .ok (.pInt none none)
  else if dataType = "boolean" then .ok .pBool
  else if dataType = "array" then .ok .pList
  else if dataType = "object" then .ok .pDict
  else .error ("Unrecognized propety type " ++ dataType ++ " in field " ++ field.name ++ "!")

/-- A node of the runtime validation model built by
`Receiver._build_nested_model`: pydantic field types, where `mObj` is a
nested `create_model` result (list of `(name, required, type)`) and
`mListObj` is `List[item_model]`. -/
inductive MType where
  | mStr : MType
  | mFloat (ge le : Option Rat) : MType
  | mInt (ge le : Option Rat) : MType
  | mBool : MType
  | mListAny : MType
  | mDictAny : MType
  | mObj (fields : List (String × Bool × MType)) : MType
  | mListObj (fields : List (String × Bool × MType)) : MType

/-- The model type corresponding to a `parse_type` result. -/
def ptypeToM : PType → MType
  | .pStr => .mStr
  | .pFloat ge le => .mFloat ge le
  | .pInt ge le => .mInt ge le
  | .pBool => .mBool
  | .pList => .mListAny
  | .pDict => .mDictAny

/-- `children_map.get(parent, [])`: the fields whose `parentProperty` equals
`parent`, in input order (`setdefault` grouping preserves order). -/
def childrenOf (fields : List FieldDescr) (parent : Option String) : List FieldDescr :=
  fields.filter (fun f => f.parentProperty = parent)

/-- The per-field loop of `Receiver._build_nested_model._build_model`:
`recur` is the recursive model builder (at one less fuel), `children` the
lookup `children_map.get(name, [])`.  `parse_type` runs first (so an
unrecognized `dataType` raises before any override), then object fields get
a nested model, and array fields get `List[item_model]` exactly when the
array name has a single child of dataType `object` (the synthetic wrapper
heuristic), else `List[Any]`. -/
def build_model_fields (recur : Option String → Except String (List (String × Bool × MType)))
    (children : String → List FieldDescr) :
    List FieldDescr → Except String (List (String × Bool × MType))
  | [] => .ok []
  | field :: rest => do
    let base ← parse_type field.dataType field
    let ftype ←
      if field.dataType = "object" then
        (recur (some field.name)).map MType.mObj
      else if field.dataType = "array" then
        match children field.name with
        | [ci] =>
          if ci.dataType = "object" then (recur (some ci.name)).map MType.mListObj
          else .ok MType.mListAny
        | _ => .ok MType.mListAny
      else .ok (ptypeToM base)
    let tail ← build_model_fields recur children rest
    .ok ((field.name, field.required, ftype) :: tail)

/-- `Receiver._build_nested_model._build_model`: build the model whose fields
are the children of `parent`.  Fuel bounds the recursion depth (a cyclic
`parentProperty` chain would overflow Python's stack). -/
def build_model (fields : List FieldDescr) :
    Nat → Option String → Except String (List (String × Bool × MType))
  | 0, _ => .error "maximum recursion depth exceeded"
  | fuel + 1, parent =>
    build_model_fields (fun p => build_model fields fuel p)
      (fun n => childrenOf fields (some n)) (childrenOf fields parent)

/-- `Receiver._build_nested_model`: the top-level model collects the fields
with no parent. -/
def build_nested_model (fields : List FieldDescr) (fuel : Nat) : Except String MType :=
  (build_model fields fuel none).map MType.mObj

/-- `ge=`/`le=` bound checks of a pydantic numeric `Field`. -/
def checkBounds (ge le : Option Rat) (x : Rat) : Bool :=
  (match ge with | some g => decide (g ≤ x) | none => true) &&
  (match le with | some l => decide (x ≤ l) | none => true)

/-- The per-field loop of pydantic model validation: each declared field is
looked up in the payload; a missing required field is an error, a missing
optional field defaults to `None`.  Payload keys not declared in the model
are ignored (pydantic v1 default `Extra.ignore`). -/
def validateFields (vt : MType → Value → Except String Value) :
    List (String × Bool × MType) → List (String × Value) →
    Except String (List (String × Value))
  | [], _ => .ok []
  | (name, req, t) :: rest, kvs => do
    let v ←
      match lookupS kvs name with
      | some v => vt t v
      | none => if req then .error ("field required: " ++ name) else .ok .vnull
    let tail ← validateFields vt rest kvs
    .ok ((name, v) :: tail)

/-- Element-wise validation of a `List[item_model]` field. -/
def validateList (vt : MType → Value → Except String Value) (t : MType) :
    List Value → Except String (List Value)
  | [] => .ok []
  | x :: xs => do
    let v ← vt t x
    let rest ← validateList vt t xs
    .ok (v :: rest)

/-- Validation of a payload value against the model built by
`Receiver._build_nested_model`, as pydantic v1 performs it when FastAPI
parses the request body.  The result is the normalized value
(`payload.dict()`): declared fields only, missing optional fields as `None`,
`int` accepted for `float` fields.  Python values that pydantic would accept
only by lenient string/number coercion are rejected; every acceptance below
is also a pydantic acceptance, and the bound checks are exactly
`Field(ge=..., le=...)`. -/
def validateValue : Nat → MType → Value → Except String Value
  | 0, _, _ => .error "maximum recursion depth exceeded"
  | fuel + 1, t, v =>
    match t, v with
    | .mStr, .vstr s => .ok (.vstr s)
    | .mBool, .vbool b => .ok (.vbool b)
    | .mInt ge le, .vint n =>
      if checkBounds ge le (n : Rat) then .ok (.vint n)
      else .error "bound violated"
    | .mFloat ge le, .vint n =>
      if checkBounds ge le (n : Rat) then .ok (.vnum (n : Rat))
      else .error "bound violated"
    | .mFloat ge le, .vnum q =>
      if checkBounds ge le q then .ok (.vnum q)
      else .error "bound violated"
    | .mListAny, .varr xs => .ok (.varr xs)
    | .mDictAny, .vobj fs => .ok (.vobj fs)
    | .mListObj fields, .varr xs =>
      (validateList (fun t v => validateValue fuel t v) (.mObj fields) xs).map Value.varr
    | .mObj fields, .vobj kvs =>
      (validateFields (fun t v => validateValue fuel t v) fields kvs).map Value.vobj
    | _, _ => .error "type mismatch"

/-- `Receiver._make_handler`: FastAPI validates the payload against the
model, then the handler returns `{"message": "Valid", "data": payload.dict()}`. -/
def make_handler (model : MType) (fuel : Nat) (payload : Value) : Except String Value :=
  (validateValue fuel model payload).map
    (fun v => .vobj [("message", .vstr "Valid"), ("data", v)])

/-! ## translator.py — DocCompliler -/

/-- A documentation table row: rendered type string, description, required. -/
abbrev FieldRow := String × String × Bool

/-- One table: ordered mapping field name → row. -/
abbrev TableFields := List (String × FieldRow)

/-- The `tables` dict: ordered mapping schema name → table. -/
abbrev Tables := List (String × TableFields)

/-- Python dict assignment `d[k] = v` on an association list: replace in
place if the key exists, else append. -/
def setKey {α : Type} : List (String × α) → String → α → List (String × α)
  | [], k, v => [(k, v)]
  | (k', v') :: rest, k, v =>
    if k' = k then (k', v) :: rest else (k', v') :: setKey rest k v

/-- Python dict `d.pop(k)`, the removal part. -/
def removeKey {α : Type} : List (String × α) → String → List (String × α)
  | [], _ => []
  | (k', v') :: rest, k => if k' = k then rest else (k', v') :: removeKey rest k

/-- Resolution of one field's rendered type string inside the property loop
of `DocCompliler.parse_schema`, parameterized by the recursive call `ps` (at
one less fuel): a `$ref` field renders as the referenced table's name
(registering that table); an array field renders as `array[...]` of its item
type, reference or inline-object table; an inline object field renders as
its own field name; anything else combines `type/format`. -/
def parse_field_type (ps : String → Frag → Tables → Option (Tables × String))
    (schema_catalog : List (String × Frag)) (field : String) (field_details : Frag)
    (tables : Tables) : Option (Tables × String) :=
  let base_type := field_details.type.getD ""
  let field_format := field_details.format.getD ""
  let field_type0 := if field_format ≠ "" then base_type ++ "/" ++ field_format else base_type
  match field_details.ref with
  | some r =>
    let ref_name := refTail r
    let ref_schema := (lookupS schema_catalog ref_name).getD emptyFrag
    ps ref_name ref_schema tables
  | none =>
    if base_type = "array" then
      let items := field_details.items.getD emptyFrag
      let item_type := items.type.getD ""
      let item_format := items.format.getD ""
      match items.ref with
      | some ir =>
        let item_ref := refTail ir
        let item_schema := (lookupS schema_catalog item_ref).getD emptyFrag
        match ps item_ref item_schema tables with
        | some (tables', t) => some (tables', "array[" ++ t ++ "]")
        | none => none
      | none =>
        if item_type = "object" ∧ items.properties.isSome then
          match ps field items tables with
          | some (tables', _) => some (tables', "array[" ++ field ++ "]")
          | none => none
        else if item_format ≠ "" then
          some (tables, "array[" ++ item_type ++ "/" ++ item_format ++ "]")
        else
          some (tables, "array[" ++ item_type ++ "]")
    else if base_type = "object" ∧ field_details.properties.isSome then
      match ps field field_details tables with
      | some (tables', _) => some (tables', field)
      | none => none
    else
      some (tables, field_type0)

/-- The per-property loop of `DocCompliler.parse_schema` for an object
schema: each field resolves its rendered type string via `parse_field_type`
(possibly registering tables as a side effect) and contributes one row. -/
def parse_fields (ps : String → Frag → Tables → Option (Tables × String))
    (schema_catalog : List (String × Frag)) (required : List String) :
    List (String × Frag) → Tables → Option (Tables × TableFields)
  | [], tables => some (tables, [])
  | (field, field_details) :: rest, tables => do
    let (tables1, field_type) ← parse_field_type ps schema_catalog field field_details tables
    let row : FieldRow := (field_type, field_details.description, decide (field ∈ required))
    let (tablesF, rows) ← parse_fields ps schema_catalog required rest tables1
    some (tablesF, (field, row) :: rows)

/-- `DocCompliler.parse_schema`.  Memoized on `schema_name` via `tables`
(`if schema_name in tables: return schema_name`); a placeholder empty table
is registered before any recursion.  `$ref`s resolve through the catalog
with `.get(ref_name, {})` — an unknown reference silently becomes the empty
schema.  Returns the updated `tables` and the rendered type string.  Fuel
bounds the recursion depth. -/
def parse_schema (schema_catalog : List (String × Frag)) :
    Nat → String → Frag → Tables → Option (Tables × String)
  | 0, _, _, _ => none
  | fuel + 1, schema_name, schema, tables =>
    if (lookupS tables schema_name).isSome then some (tables, schema_name)
    else
      let tables := setKey tables schema_name []
      match schema.ref with
      | some refStr =>
        let ref_name := refTail refStr
        let ref_schema := (lookupS schema_catalog ref_name).getD emptyFrag
        parse_schema schema_catalog fuel ref_name ref_schema tables
      | none =>
        let schema_type := schema.type
        if schema_type = some "array" then
          let items := schema.items.getD emptyFrag
          match items.ref with
          | some ir =>
            let item_schema_name := refTail ir
            let item_schema := (lookupS schema_catalog item_schema_name).getD emptyFrag
            match parse_schema schema_catalog fuel item_schema_name item_schema tables with
            | some (tables', t) => some (tables', "array[" ++ t ++ "]")
            | none => none
          | none =>
            match items.type with
            | some it => some (tables, "array[" ++ it ++ "]")
            | none => some (tables, "array[unknown]")
        else if schema_type ≠ some "object" ∧ schema_type ≠ some "array" ∧
            schema.properties.isNone then
          some (tables,
            match schema_type with
            | some t => if t = "" then "unknown" else t
            | none => "unknown")
        else
          match parse_fields (fun n s t => parse_schema schema_catalog fuel n s t)
              schema_catalog schema.required (schema.properties.getD []) tables with
          | some (tables', schema_fields) =>
            some (setKey tables' schema_name schema_fields, schema_name)
          | none => none

/-- `DocCompliler.parse_endpoint_body`: flatten one endpoint body starting
from a fresh `tables`; when the base schema is a bare `$ref`, the referenced
schema's table is popped and re-keyed under `base_name`. -/
def parse_endpoint_body (schema_catalog : List (String × Frag)) (fuel : Nat)
    (base_name : String) (base_schema : Frag) : Option Tables := do
  let (tables, _) ← parse_schema schema_catalog fuel base_name base_schema []
  match base_schema.ref with
  | some refStr =>
    let ref_name := refTail refStr
    match lookupS tables ref_name with
    | some popped => some (setKey (removeKey tables ref_name) base_name popped)
    | none => none
  | none => some tables

/-! ## sender.py — Sender.extract_schema_fields -/

/-- One entry of the field list produced by `Sender.extract_schema_fields`.
Constraint keys are copied only when present in the property schema. -/
structure FieldInfo where
  name : String
  type : String
  required : Bool
  description : String
  parent : Option String
  items_type : Option String := none
  format : Option String := none
  minimum : Option Rat := none
  maximum : Option Rat := none
  minLength : Option Nat := none
  maxLength : Option Nat := none
  pattern : Option String := none
  exampleVal : Option Value := none
  enumVals : Option (List Value) := none
  nullable : Option Bool := none

/-- The per-property loop of `Sender.extract_schema_fields` for an object
schema, parameterized by the recursive call `recur` (at one less fuel).
Nested objects contribute their own flattened fields; arrays contribute one
`array` row plus, when the item schema is an object or a reference, the
flattened item fields under `name[*]`; any other property is one row with
its constraints copied. -/
def extract_props (recur : Frag → String → List String → List String → Option (List FieldInfo))
    (parent_name : String) (required : List String) (visited : List String) :
    List (String × Frag) → Option (List FieldInfo)
  | [] => some []
  | (prop_name, prop_schema) :: rest => do
    let field_path := if parent_name = "" then prop_name else parent_name ++ "." ++ prop_name
    let is_required := decide (prop_name ∈ required)
    let these ←
      if prop_schema.type = some "object" then
        recur prop_schema field_path prop_schema.required visited
      else if prop_schema.type = some "array" then
        let arrInfo : FieldInfo :=
          { name := field_path, type := "array", required := is_required,
            description := prop_schema.description,
            parent := if parent_name = "" then none else some parent_name,
            items_type := some (((prop_schema.items.getD emptyFrag).type).getD "unknown") }
        let items_schema := prop_schema.items.getD emptyFrag
        if items_schema.type = some "object" ∨ items_schema.ref.isSome then
          (recur items_schema (field_path ++ "[*]") items_schema.required visited).map
            (fun nested => arrInfo :: nested)
        else some [arrInfo]
      else
        some [{ name := field_path, type := prop_schema.type.getD "string",
                required := is_required, description := prop_schema.description,
                parent := if parent_name = "" then none else some parent_name,
                format := prop_schema.format, minimum := prop_schema.minimum,
                maximum := prop_schema.maximum, minLength := prop_schema.minLength,
                maxLength := prop_schema.maxLength, pattern := prop_schema.pattern,
                exampleVal := prop_schema.base.exampleVal,
                enumVals := prop_schema.enumVals,
                nullable := prop_schema.base.nullable }]
    let tail ← extract_props recur parent_name required visited rest
    some (these ++ tail)

/-- The type-dispatch body of `Sender.extract_schema_fields` (everything
after the `$ref` handling), parameterized by the recursive call `recur` (at
one less fuel): an object walks its properties, an array with an object or
referenced item schema walks that item schema under `parent[*]`, and any
other type contributes no fields. -/
def extract_walk (recur : Frag → String → List String → List String → Option (List FieldInfo))
    (schema_config : Frag) (parent_name : String) (visited : List String) :
    Option (List FieldInfo) :=
  let schema_type := schema_config.type.getD "object"
  if schema_type = "object" then
    extract_props recur parent_name schema_config.required visited
      (schema_config.properties.getD [])
  else if schema_type = "array" then
    let items_schema := schema_config.items.getD emptyFrag
    if items_schema.type = some "object" ∨ items_schema.ref.isSome then
      recur items_schema (if parent_name = "" then "[*]" else parent_name ++ "[*]")
        items_schema.required visited
    else some []
  else some []

/-- `Sender.extract_schema_fields`.  A `$ref` whose name is already in
`visited_refs` returns the (empty) fields collected so far — the cycle
guard.  Otherwise the name is added to the visited set and, when present in
the catalog, resolution recurses into the referenced schema; when absent,
control falls through and the unresolved fragment itself is walked (its type
defaults to `object`).  Fuel bounds the recursion depth. -/
def extract_schema_fields (schemas : List (String × Frag)) :
    Nat → Frag → String → List String → List String → Option (List FieldInfo)
  | 0, _, _, _, _ => none
  | fuel + 1, schema_config, parent_name, required_fields, visited_refs =>
    match schema_config.ref with
    | some refPath =>
      let schema_name := refTail refPath
      if schema_name ∈ visited_refs then some []
      else
        match lookupS schemas schema_name with
        | some f =>
          extract_schema_fields schemas fuel f parent_name required_fields
            (schema_name :: visited_refs)
        | none =>
          extract_walk (fun f p rq vs => extract_schema_fields schemas fuel f p rq vs)
            schema_config parent_name (schema_name :: visited_refs)
    | none =>
      extract_walk (fun f p rq vs => extract_schema_fields schemas fuel f p rq vs)
        schema_config parent_name visited_refs

/-! ## A common SchemaNode for the synthesize/validate round trip

The sender consumes OpenAPI fragments while the receiver consumes the flat
field-descriptor list, so the round-trip property of the spec quantifies over
an abstract SchemaNode rendered into both formats.  `PrimSpec` is one
primitive property (type, numeric bounds with exclusive flags, length
bounds, requiredness); an object node is a list of such properties.
`primFrag`/`nodeFrag` render the node in OpenAPI form for
`DataGenerator.generate_field_data`; `nodeFields` renders it as the
receiver's flat field list (`minimum`/`maximum` become
`minValue`/`maxValue`, `number` becomes dataType `float`). -/

/-- Primitive kinds shared by both schema formats. -/
inductive PKind where
  | kString : PKind
  | kInteger : PKind
  | kNumber : PKind
  | kBoolean : PKind
  deriving DecidableEq

/-- OpenAPI `type` tag of a kind (sender side). -/
def PKind.openapiType : PKind → String
  | .kString => "string"
  | .kInteger => "integer"
  | .kNumber => "number"
  | .kBoolean => "boolean"

/-- Flat-list `dataType` of a kind (receiver side). -/
def PKind.flatType : PKind → String
  | .kString => "string"
  | .kInteger => "integer"
  | .kNumber => "float"
  | .kBoolean => "boolean"

/-- One primitive property of an object SchemaNode. -/
structure PrimSpec where
  pname : String
  kind : PKind
  lo : Option Rat := none
  hi : Option Rat := none
  exMin : Bool := false
  exMax : Bool := false
  minLen : Option Nat := none
  maxLen : Option Nat := none
  preq : Bool := false

/-- OpenAPI rendering of one primitive property. -/
def primFrag (p : PrimSpec) : Frag :=
  .mk { type := some p.kind.openapiType, minimum := p.lo, maximum := p.hi,
        exclusiveMinimum := if p.exMin then some true else none,
        exclusiveMaximum := if p.exMax then some true else none,
        minLength := p.minLen, maxLength := p.maxLen } none none

/-- OpenAPI rendering of the object node. -/
def nodeFrag (node : List PrimSpec) : Frag :=
  .mk { type := some "object",
        required := (node.filter (fun p => p.preq)).map (fun p => p.pname) } none
    (some (node.map (fun p => (p.pname, primFrag p))))

/-- Flat field-list rendering of the object node (receiver side). -/
def nodeFields (node : List PrimSpec) : List FieldDescr :=
  node.map (fun p =>
    { name := p.pname, dataType := p.kind.flatType, parentProperty := none,
      required := p.preq, minValue := p.lo, maxValue := p.hi })

/-- The model type the receiver builds for one primitive property. -/
def mtypeOf (p : PrimSpec) : MType :=
  match p.kind with
  | .kString => .mStr
  | .kInteger => .mInt p.lo p.hi
  | .kNumber => .mFloat p.lo p.hi
  | .kBoolean => .mBool

/-- Well-formedness of one primitive property, collecting exactly the
side conditions under which generation draws from a nonempty range inside
the declared bounds: integer bounds are integers and the
exclusive-shifted range is nonempty; number bounds are aligned to the
`round(·, 2)` grid (multiples of `1/100`) and the epsilon-shifted range is
nonempty; string length bounds leave `randint` a nonempty range.
`multipleOf` is absent — quantization can leave the declared range. -/
def WFprim (p : PrimSpec) : Prop :=
  match p.kind with
  | .kString => p.minLen.getD 1 ≤ p.maxLen.getD (max 10 (p.minLen.getD 1))
  | .kInteger =>
    ((p.lo.getD 1) + (if p.exMin then 1 else 0)).den = 1 ∧
    ((p.hi.getD 100) - (if p.exMax then 1 else 0)).den = 1 ∧
    (p.lo.getD 1) + (if p.exMin then 1 else 0) ≤ (p.hi.getD 100) - (if p.exMax then 1 else 0)
  | .kNumber =>
    (100 * p.lo.getD 1).den = 1 ∧ (100 * p.hi.getD 1).den = 1 ∧
    (p.lo.getD 1) + (if p.exMin then epsQ else 0) ≤ (p.hi.getD 100) - (if p.exMax then epsQ else 0)
  | .kBoolean => True

/-- Well-formedness of the object node: distinct property names, each
property well-formed. -/
def WFnode (node : List PrimSpec) : Prop :=
  (node.map (fun p => p.pname)).Nodup ∧ ∀ p ∈ node, WFprim p

/-! ## Catalogs and fragments used by concrete scenarios -/

/-- `{'type': 'integer', 'minimum': 7, 'maximum': 9, 'multipleOf': 5}` —
the quantization of a drawn value down to a multiple of 5 lands below the
minimum. -/
def fragQty : Frag :=
  .mk { type := some "integer", minimum := some 7, maximum := some 9,
        multipleOf := some 5 } none none

/-- An object schema with the single required property `qty : fragQty`. -/
def objQty : Frag :=
  .mk { type := some "object", required := ["qty"] } none (some [("qty", fragQty)])

/-- The flat field list describing the same node on the receiver side
(`multipleOf` has no flat equivalent; bounds become `minValue`/`maxValue`). -/
def fieldsQty : List FieldDescr :=
  [{ name := "qty", dataType := "integer", parentProperty := none,
     required := true, minValue := some 7, maxValue := some 9 }]

/-- A self-referential catalog: component `A` is an object whose property
`self` is `$ref: '#/components/schemas/A'`. -/
def fragA : Frag :=
  .mk { type := some "object" } none (some [("self", refFrag "#/components/schemas/A")])

/-- The catalog containing only the self-referential schema `A`. -/
def cyclicCatalog : List (String × Frag) := [("A", fragA)]

/-! ## Termination measure for `extract_schema_fields`

The recursion either enters a catalog schema not yet visited (the unvisited
count drops) or descends into a structurally smaller fragment, so
`unvisitedCount * (maxFragSize + 1) + sizeOf fragment` bounds the recursion
depth. -/

mutual
/-- Structural size of a fragment. -/
def fragSize : Frag → Nat
  | .mk _ items props => 1 + optFragSize items + optPropsSize props

/-- Size of an optional `items` fragment. -/
def optFragSize : Option Frag → Nat
  | none => 0
  | some f => 1 + fragSize f

/-- Size of an optional `properties` dict. -/
def optPropsSize : Option (List (String × Frag)) → Nat
  | none => 0
  | some l => 1 + propsSize l

/-- Size of a `properties` dict. -/
def propsSize : List (String × Frag) → Nat
  | [] => 0
  | (_, f) :: rest => 1 + fragSize f + propsSize rest
end

/-- Number of catalog entries whose name is not yet visited. -/
def unvisitedCount (schemas : List (String × Frag)) (visited : List String) : Nat :=
  (schemas.filter (fun kv => kv.1 ∉ visited)).length

/-- The largest fragment size in the catalog. -/
def maxFragSize (schemas : List (String × Frag)) : Nat :=
  (schemas.map (fun kv => fragSize kv.2)).foldr max 0

/-- Fuel bound for `extract_schema_fields schemas fuel sc _ _ visited`. -/
def extractBound (schemas : List (String × Frag)) (visited : List String) (sc : Frag) : Nat :=
  unvisitedCount schemas visited * (maxFragSize schemas + 1) + fragSize sc

/-! ## Concrete inputs used by the witnesses -/

/-- `{'enum': ['on', 'off'], 'type': 'integer'}`: an enum fragment that also
declares a type. -/
def enumFrag : Frag :=
  .mk { enumVals := some [.vstr "on", .vstr "off"], type := some "integer" } none none

/-- A `uniqueItems` array of three draws of the constant integer 2. -/
def arrUniqueFrag : Frag :=
  .mk { type := some "array", minItems := some 3, maxItems := some 3,
        uniqueItems := some true }
    (some (.mk { type := some "integer", minimum := some 2, maximum := some 2 } none none))
    none

/-- An item schema declaring `enum: [5, 5.0]` — an `int` and a `float` that
Python's `==` identifies but whose `str` renderings differ. -/
def dupEnumFrag : Frag := .mk { enumVals := some [.vint 5, .vnum 5] } none none

/-- An oracle whose `random.choice` always picks index 1 (`minRand` picks
index 0); two successive Python draws can realize one each. -/
def idx1Rand : RandomSource := { minRand with choiceIdx := fun _ => 1 }

/-- A flat field whose `dataType` is the unrecognized tag `datetime`. -/
def fdWhen : FieldDescr :=
  { name := "when", dataType := "datetime", parentProperty := none, required := true }

/-- An OpenAPI fragment with the same unrecognized type tag. -/
def unknownFrag : Frag := .mk { type := some "datetime" } none none

/-- A one-field validation model (`age : int = Field(..., ge=0)`). -/
def modelAge : List (String × Bool × MType) := [("age", true, .mInt (some 0) none)]

/-- A payload carrying the declared field plus an undeclared extra. -/
def payloadExtra : Value := .vobj [("age", .vint 3), ("extra", .vstr "x")]

/-- Catalog with one component schema `Item = {id : string}`. -/
def itemCatalog : List (String × Frag) :=
  [("Item", .mk { type := some "object", required := ["id"] } none
    (some [("id", .mk { type := some "string" } none none)]))]

/-- An object schema referencing `Item` from two different properties. -/
def twoRefsFrag : Frag :=
  .mk { type := some "object" } none
    (some [("first", refFrag "#/components/schemas/Item"),
           ("second", refFrag "#/components/schemas/Item")])

/-- The object SchemaNode used by the round-trip witness: a required string,
a required integer pinned to 18, a number in `[1/2, 3/4]`, and a boolean. -/
def nodeW : List PrimSpec :=
  [{ pname := "name", kind := .kString, preq := true },
   { pname := "age", kind := .kInteger, lo := some 18, hi := some 18, preq := true },
   { pname := "score", kind := .kNumber, lo := some (1/2), hi := some (3/4) },
   { pname := "ok", kind := .kBoolean }]

/-! # Lemmas -/

@[simp] theorem except_bind_ok {ε α β : Type} (a : α) (f : α → Except ε β) :
    (Except.ok a >>= f) = f a := rfl

@[simp] theorem except_bind_error {ε α β : Type} (e : ε) (f : α → Except ε β) :
    ((Except.error e : Except ε α) >>= f) = .error e := rfl

@[simp] theorem except_map_ok {ε α β : Type} (f : α → β) (a : α) :
    Except.map f (.ok a : Except ε α) = .ok (f a) := rfl

@[simp] theorem except_map_error {ε α β : Type} (f : α → β) (e : ε) :
    Except.map f (.error e : Except ε α) = .error e := rfl

theorem lookupS_mem {α : Type} : ∀ (l : List (String × α)) {k : String} {v : α},
    lookupS l k = some v → (k, v) ∈ l := by
  intro l
  induction l with
  | nil => intro k v h; simp [lookupS] at h
  | cons hd tl ih =>
    intro k v h
    obtain ⟨k', v'⟩ := hd
    by_cases hk : k' = k
    · subst hk
      simp [lookupS] at h
      subst h
      exact List.mem_cons_self _ _
    · simp [lookupS, hk] at h
      exact List.mem_cons_of_mem _ (ih h)

theorem genProps_keys (gen : Frag → Except GenErr Value) :
    ∀ (props : List (String × Frag)) (pvs : List (String × Value)),
    genProps gen props = .ok pvs → pvs.map Prod.fst = props.map Prod.fst := by
  intro props
  induction props with
  | nil =>
    intro pvs h
    simp [genProps] at h
    subst h
    rfl
  | cons hd tl ih =>
    intro pvs h
    obtain ⟨n, f⟩ := hd
    cases hg : gen f with
    | error e => simp [genProps, hg] at h
    | ok v =>
      cases ht : genProps gen tl with
      | error e => simp [genProps, hg, ht] at h
      | ok tvs =>
        simp [genProps, hg, ht] at h
        subst h
        simp [ih tvs ht]

/-- C9: for every fragment declaring `enum` (after `$ref` resolution), the
synthesized value is a member of the declared enum list, whatever the
declared type and constraints are (the enum branch precedes all type
dispatch). -/
theorem C9_enum_member (schemas : List (String × Frag)) (r : RandomSource) (fuel : Nat)
    (fc : Frag) (l : List Value) (v : Value)
    (href : fc.ref = none) (henum : fc.enumVals = some l)
    (hgen : generate_field_data schemas r (fuel + 1) fc = .ok v) : v ∈ l := by
  simp only [generate_field_data, resolveRef, href, henum] at hgen
  cases hidx : l.get? (r.choiceIdx l.length) with
  | none => rw [hidx] at hgen; cases hgen
  | some w =>
    rw [hidx] at hgen
    cases hgen
    exact List.get?_mem hidx

theorem C9_enum_member_witness : Value.vstr "on" ∈ [Value.vstr "on", Value.vstr "off"] :=
  C9_enum_member [] minRand 0 enumFrag [Value.vstr "on", Value.vstr "off"] (Value.vstr "on")
    rfl rfl (by simp [generate_field_data, resolveRef, enumFrag, minRand, Frag.ref, Frag.base, Frag.items, Frag.properties, Frag.enumVals, Frag.type, Frag.minLength, Frag.maxLength, Frag.pattern, Frag.format, Frag.minimum, Frag.maximum, Frag.exclusiveMinimum, Frag.exclusiveMaximum, Frag.multipleOf, Frag.minItems, Frag.maxItems, Frag.uniqueItems, Frag.required, Frag.description])

/-- Shared evaluation: on the `objQty` node, with the lower-end oracle, the
synthesizer draws 7 for `qty` and quantizes it down to 5. -/
theorem gen_objQty :
    generate_field_data [] minRand 2 objQty = .ok (.vobj [("qty", .vint 5)]) := by
  simp +decide only [generate_field_data, resolveRef, generate_object, genProps, objQty,
    fragQty, Frag.ref, Frag.base, Frag.enumVals, Frag.type, Frag.properties, Frag.minimum,
    Frag.maximum, Frag.exclusiveMinimum, Frag.exclusiveMaximum, Frag.multipleOf,
    Option.getD, ite_true, ite_false]
  norm_num [generate_integer, intOrNum, qmod, minRand]

/-- C8: the synthesized object carries exactly the declared properties, in
declaration order: the keys of the generated dict equal the keys of the
schema's `properties` dict. -/
theorem C8_object_declared_properties (schemas : List (String × Frag)) (r : RandomSource)
    (fuel : Nat) (fc : Frag) (v : Value)
    (href : fc.ref = none) (henum : fc.enumVals = none) (htype : fc.type = some "object")
    (hgen : generate_field_data schemas r (fuel + 1) fc = .ok v) :
    ∃ kvs, v = .vobj kvs ∧ kvs.map Prod.fst = (fc.properties.getD []).map Prod.fst := by
  simp +decide only [generate_field_data, resolveRef, href, henum, htype, Option.getD_some,
    ite_true, ite_false] at hgen
  simp only [generate_object] at hgen
  cases hp : genProps (fun f => generate_field_data schemas r fuel f) (fc.properties.getD []) with
  | error e => rw [hp] at hgen; cases hgen
  | ok pvs =>
    rw [hp] at hgen
    simp only [except_map_ok] at hgen
    cases hgen
    exact ⟨pvs, rfl, genProps_keys _ _ _ hp⟩

theorem C8_object_declared_properties_witness :
    ∃ kvs, Value.vobj [("qty", Value.vint 5)] = Value.vobj kvs ∧
      kvs.map Prod.fst = (objQty.properties.getD []).map Prod.fst :=
  C8_object_declared_properties [] minRand 1 objQty _ rfl rfl rfl gen_objQty

/-- Keys of `upsert al k v` are the keys of `al` plus possibly `k`. -/
theorem mem_keys_upsert : ∀ (al : List (String × Value)) (k : String) (v : Value) (x : String),
    x ∈ (upsert al k v).map Prod.fst ↔ x ∈ al.map Prod.fst ∨ x = k := by
  intro al k v x
  induction al with
  | nil => simp [upsert]
  | cons hd tl ih =>
    obtain ⟨k', v'⟩ := hd
    by_cases hk : k' = k
    · subst hk
      simp [upsert]
      tauto
    · simp [upsert, hk, ih]
      tauto

theorem goodAl_upsert : ∀ (al : List (String × Value)) (i : Value),
    goodAl al → goodAl (upsert al (render i) i) := by
  intro al i
  induction al with
  | nil =>
    intro _
    exact ⟨by simp [upsert], by simp [upsert]⟩
  | cons hd tl ih =>
    intro ⟨hnd, hpair⟩
    obtain ⟨k', v'⟩ := hd
    simp only [List.map_cons, List.nodup_cons] at hnd
    by_cases hk : k' = render i
    · refine ⟨?_, ?_⟩
      · simpa [upsert, hk] using hnd
      · intro p hp
        simp only [upsert, hk, if_pos rfl] at hp
        rcases List.mem_cons.mp hp with h | h
        · subst h; exact hk.symm ▸ rfl
        · exact hpair p (List.mem_cons_of_mem _ h)
    · have htl : goodAl tl := ⟨hnd.2, fun p hp => hpair p (List.mem_cons_of_mem _ hp)⟩
      have ihg := ih htl
      refine ⟨?_, ?_⟩
      · simp only [upsert, if_neg hk, List.map_cons, List.nodup_cons]
        refine ⟨?_, ihg.1⟩
        intro hmem
        rcases (mem_keys_upsert tl (render i) i k').mp hmem with h | h
        · exact hnd.1 h
        · exact hk h
      · intro p hp
        simp only [upsert, if_neg hk] at hp
        rcases List.mem_cons.mp hp with h | h
        · subst h; exact hpair _ (List.mem_cons_self _ _)
        · exact ihg.2 p h

theorem goodAl_values_nodup (al : List (String × Value)) (h : goodAl al) :
    (al.map Prod.snd).Nodup := by
  obtain ⟨hkeys, hpair⟩ := h
  have hal : al.Nodup := hkeys.of_map
  refine hal.map_on ?_
  intro p hp q hq hpq
  have h1 : render p.2 = p.1 := hpair p hp
  have h2 : render q.2 = q.1 := hpair q hq
  have : p.1 = q.1 := by rw [← h1, ← h2, hpq]
  exact Prod.ext this hpq

theorem upsert_length : ∀ (al : List (String × Value)) (k : String) (v : Value),
    (upsert al k v).length ≤ al.length + 1 := by
  intro al k v
  induction al with
  | nil => simp [upsert]
  | cons hd tl ih =>
    obtain ⟨k', v'⟩ := hd
    by_cases hk : k' = k
    · simp [upsert, hk]
    · simp only [upsert, if_neg hk, List.length_cons]
      omega

/-- The dict-comprehension fold preserves the key invariant. -/
theorem goodAl_fold : ∀ (l : List Value) (al : List (String × Value)), goodAl al →
    goodAl (l.foldl (fun al i => upsert al (render i) i) al) := by
  intro l
  induction l with
  | nil => intro al h; exact h
  | cons hd tl ih =>
    intro al h
    exact ih _ (goodAl_upsert al hd h)

/-- The deduplicated list has pairwise distinct values. -/
theorem dedupByStr_nodup (items : List Value) : (dedupByStr items).Nodup :=
  goodAl_values_nodup _ (goodAl_fold items [] ⟨by simp, by simp⟩)

/-- The deduplicated list has pairwise distinct `str` renderings: its
elements are the values of a dict keyed by `str(i)`. -/
theorem dedupByStr_render_nodup (items : List Value) :
    ((dedupByStr items).map render).Nodup := by
  obtain ⟨hkeys, hpair⟩ := goodAl_fold items [] ⟨by simp, by simp⟩
  have hmap : (dedupByStr items).map render
      = (items.foldl (fun al i => upsert al (render i) i) []).map Prod.fst := by
    rw [dedupByStr, List.map_map]
    exact List.map_congr_left hpair
  rw [hmap]
  exact hkeys

/-- Deduplication never lengthens the list. -/
theorem dedupByStr_length (items : List Value) : (dedupByStr items).length ≤ items.length := by
  have key : ∀ (l : List Value) (al : List (String × Value)),
      (l.foldl (fun al i => upsert al (render i) i) al).length ≤ al.length + l.length := by
    intro l
    induction l with
    | nil => simp
    | cons hd tl ih =>
      intro al
      calc (tl.foldl (fun al i => upsert al (render i) i) (upsert al (render hd) hd)).length
          ≤ (upsert al (render hd) hd).length + tl.length := ih _
        _ ≤ al.length + 1 + tl.length := by
            have := upsert_length al (render hd) hd
            omega
        _ = al.length + (tl.length + 1) := by omega
  have := key items []
  simpa [dedupByStr] using this

theorem genCount_length (gen : Frag → Except GenErr Value) (item : Frag) :
    ∀ (n : Nat) (xs : List Value), genCount gen item n = .ok xs → xs.length = n := by
  intro n
  induction n with
  | zero =>
    intro xs h
    simp [genCount] at h
    subst h
    rfl
  | succ m ih =>
    intro xs h
    cases hg : gen item with
    | error e => simp [genCount, hg] at h
    | ok v =>
      cases hc : genCount gen item m with
      | error e => simp [genCount, hg, hc] at h
      | ok rest =>
        simp [genCount, hg, hc] at h
        subst h
        simp [ih rest hc]

/-- C7, amended: an array node with `uniqueItems = true` synthesizes the
drawn items deduplicated by their `str()` rendering: the rendered strings
of the result are pairwise distinct (in particular the list has no two
structurally equal elements), and its length is at most the drawn size —
deduplication only removes, nothing is topped back up.  The source does
NOT deduplicate by Python value equality: `str`-distinct elements can
still be `==`-equal, see the counterexample. -/
theorem C7_unique_array (schemas : List (String × Frag)) (r : RandomSource) (fuel : Nat)
    (fc : Frag) (v : Value)
    (href : fc.ref = none) (henum : fc.enumVals = none) (htype : fc.type = some "array")
    (huniq : fc.uniqueItems = some true)
    (hgen : generate_field_data schemas r (fuel + 1) fc = .ok v) :
    ∃ xs, v = .varr xs ∧ (xs.map render).Nodup ∧ xs.Nodup ∧
      xs.length ≤ (r.randint ((fc.minItems.getD 1 : Nat) : Int)
        ((fc.maxItems.getD (max 10 (fc.minItems.getD 1)) : Nat) : Int)).toNat := by
  simp +decide only [generate_field_data, resolveRef, href, henum, htype, Option.getD_some,
    ite_true, ite_false] at hgen
  simp only [generate_array, huniq, Option.getD_some] at hgen
  by_cases hmm : fc.maxItems.getD (max 10 (fc.minItems.getD 1)) < fc.minItems.getD 1
  · rw [if_pos hmm] at hgen; cases hgen
  · rw [if_neg hmm] at hgen
    cases hc : genCount (fun f => generate_field_data schemas r fuel f)
        (fc.items.getD stringFrag)
        ((r.randint ((fc.minItems.getD 1 : Nat) : Int)
          ((fc.maxItems.getD (max 10 (fc.minItems.getD 1)) : Nat) : Int)).toNat) with
    | error e => rw [hc] at hgen; cases hgen
    | ok items =>
      rw [hc] at hgen
      simp only [if_true] at hgen
      cases hgen
      refine ⟨dedupByStr items, rfl, dedupByStr_render_nodup items, dedupByStr_nodup items, ?_⟩
      calc (dedupByStr items).length ≤ items.length := dedupByStr_length items
        _ = _ := genCount_length _ _ _ _ hc
theorem gen_arrUnique :
    generate_field_data [] minRand 2 arrUniqueFrag = .ok (.varr [.vint 2]) := by
  simp +decide only [generate_field_data, resolveRef, generate_array, genCount, arrUniqueFrag,
    Frag.ref, Frag.base, Frag.enumVals, Frag.type, Frag.minItems, Frag.maxItems,
    Frag.uniqueItems, Frag.items, Frag.minimum, Frag.maximum, Frag.exclusiveMinimum,
    Frag.exclusiveMaximum, Frag.multipleOf, Option.getD_some, ite_true, ite_false]
  norm_num [minRand, generate_integer, intOrNum, dedupByStr, upsert, render, reprV]

theorem C7_unique_array_witness :
    ∃ xs, Value.varr [Value.vint 2] = Value.varr xs ∧ (xs.map render).Nodup ∧ xs.Nodup ∧
      xs.length ≤ (minRand.randint ((arrUniqueFrag.minItems.getD 1 : Nat) : Int)
        ((arrUniqueFrag.maxItems.getD (max 10 (arrUniqueFrag.minItems.getD 1)) : Nat) : Int)).toNat :=
  C7_unique_array [] minRand 1 arrUniqueFrag _ rfl rfl rfl rfl gen_arrUnique

/-- C7 counterexample: the `uniqueItems` deduplication of
`DataGenerator.generate_array` keys on `str(i)`, not on Python value
equality.  With item schema `enum: [5, 5.0]`, one `random.choice` draw
yields the `int` 5 and another the `float` 5.0 (each draw is realized by
`generate_field_data` under one of the two oracles below); a run of a
size-2 `uniqueItems` array drawing both gives `items = [5, 5.0]`, which
the dict comprehension `{str(i): i for i in items}` keeps intact because
the keys `str(5) = "5"` and `str(5.0) = "5.0"` differ — yet `5 == 5.0` in
Python, so the synthesized array carries two value-equal elements and
deduplication by value equality fails. -/
theorem C7_counterexample :
    generate_field_data [] minRand 1 dupEnumFrag = .ok (.vint 5) ∧
    generate_field_data [] idx1Rand 1 dupEnumFrag = .ok (.vnum 5) ∧
    render (.vint 5) = "5" ∧ render (.vnum 5) = "5.0" ∧
    dedupByStr [.vint 5, .vnum 5] = [.vint 5, .vnum 5] ∧
    pyEq (.vint 5) (.vnum 5) = true := by
  have h3 : render (Value.vint 5) = "5" := by
    simp only [render, reprV]
    rfl
  have h4 : render (Value.vnum 5) = "5.0" := by
    have hden : (5 : Rat).den = 1 := by norm_num
    have hnum : ((5 : Rat) * (10 : Rat) ^ 1).num = 50 := by norm_num
    simp only [render, reprV, floatStr, hden, decExp]
    norm_num [hnum]
    rfl
  refine ⟨?_, ?_, h3, h4, ?_, ?_⟩
  · simp [generate_field_data, resolveRef, dupEnumFrag, minRand,
      Frag.ref, Frag.base, Frag.enumVals]
  · simp [generate_field_data, resolveRef, dupEnumFrag, idx1Rand, minRand,
      Frag.ref, Frag.base, Frag.enumVals]
  · simp +decide [dedupByStr, upsert, h3, h4]
  · simp [pyEq, pyNumVal]
theorem qmod_int_cast (a b : Int) (hb : 0 < b) :
    qmod (a : Rat) (b : Rat) = ((a % b : Int) : Rat) := by
  have hfloor : ⌊(a : Rat) / (b : Rat)⌋ = a / b := by
    have hbn : ((b.toNat : Nat) : Rat) = (b : Rat) := by
      exact_mod_cast congrArg (Int.cast : Int → Rat) (Int.toNat_of_nonneg hb.le)
    rw [← hbn, Rat.floor_intCast_div_natCast]
    rw [Int.toNat_of_nonneg hb.le]
  rw [qmod, hfloor]
  have h := Int.emod_def a b
  rw [h]
  push_cast
  ring

theorem intOrNum_intCast (v : Int) : intOrNum ((v : Int) : Rat) = .vint v := by
  simp [intOrNum, Rat.den_intCast, Rat.num_intCast]

/-- `DataGenerator.generate_integer` with a positive integral `multiple_of`:
the result is the draw quantized down, an integer multiple of `m` that is at
most the maximum and undershoots the minimum by less than `m`. -/
theorem generate_integer_spec (r : RandomSource) (hr : ValidRand r) (lo hi m : Int)
    (hm : 0 < m) (hle : lo ≤ hi) :
    ∃ v : Int, generate_integer lo hi (some (m : Rat)) r = .ok ((v : Int) : Rat) ∧
      m ∣ v ∧ v ≤ hi ∧ lo - m < v := by
  obtain ⟨h1, h2⟩ := hr.1 lo hi hle
  have hmq : ((m : Int) : Rat) ≠ 0 := by exact_mod_cast ne_of_gt hm
  refine ⟨r.randint lo hi - r.randint lo hi % m, ?_, ?_, ?_, ?_⟩
  · simp only [generate_integer, if_neg (not_lt.mpr hle), if_neg hmq]
    rw [qmod_int_cast _ _ hm]
    push_cast
    ring_nf
  · have h : r.randint lo hi - r.randint lo hi % m = m * (r.randint lo hi / m) := by
      rw [Int.emod_def]; ring
    rw [h]
    exact Dvd.intro _ rfl
  · have := Int.emod_nonneg (r.randint lo hi) (ne_of_gt hm)
    omega
  · have := Int.emod_lt_of_pos (r.randint lo hi) hm
    omega

/-- Reduction of `generate_field_data` to `generate_integer` on an integer
fragment whose (shifted) bounds are the integers `a ≤ b`. -/
theorem gfd_integer_branch (schemas : List (String × Frag)) (r : RandomSource)
    (fuel : Nat) (fc : Frag) (a b : Int)
    (href : fc.ref = none) (henum : fc.enumVals = none) (htype : fc.type = some "integer")
    (hclo : (if fc.exclusiveMinimum = some true then fc.minimum.getD 1 + 1
        else fc.minimum.getD 1) = ((a : Int) : Rat))
    (hchi : (if fc.exclusiveMaximum = some true then fc.maximum.getD 100 - 1
        else fc.maximum.getD 100) = ((b : Int) : Rat)) :
    generate_field_data schemas r (fuel + 1) fc =
      match generate_integer a b fc.multipleOf r with
      | .ok q => .ok (intOrNum q)
      | .error e => .error e := by
  simp +decide only [generate_field_data, resolveRef, href, henum, htype, Option.getD_some,
    ite_true, ite_false]
  rw [hclo, hchi]
  simp [Rat.den_intCast, Rat.num_intCast]

/-- C3 (amended): for an integer node with bounds and a positive integral
`multipleOf m`, the synthesized value is an exact multiple of `m` and at most
the (exclusive-shifted) maximum, but it is only guaranteed to exceed the
(shifted) minimum minus `m`: quantizing the draw down can undershoot the
minimum by up to `m - 1`. -/
theorem C3_integer_quantization (schemas : List (String × Frag)) (r : RandomSource)
    (fuel : Nat) (fc : Frag) (lo hi m : Int)
    (href : fc.ref = none) (henum : fc.enumVals = none) (htype : fc.type = some "integer")
    (hlo : fc.minimum = some (lo : Rat)) (hhi : fc.maximum = some (hi : Rat))
    (hm : fc.multipleOf = some (m : Rat)) (hmpos : 0 < m) (hr : ValidRand r)
    (hrange : lo + (if fc.exclusiveMinimum = some true then 1 else 0) ≤
              hi - (if fc.exclusiveMaximum = some true then 1 else 0)) :
    ∃ v : Int, generate_field_data schemas r (fuel + 1) fc = .ok (.vint v) ∧
      m ∣ v ∧ v ≤ hi - (if fc.exclusiveMaximum = some true then 1 else 0) ∧
      lo + (if fc.exclusiveMinimum = some true then 1 else 0) - m < v := by
  have hclo : (if fc.exclusiveMinimum = some true then fc.minimum.getD 1 + 1
      else fc.minimum.getD 1) =
      (((lo + (if fc.exclusiveMinimum = some true then 1 else 0) : Int)) : Rat) := by
    by_cases hex : fc.exclusiveMinimum = some true
    · rw [if_pos hex, if_pos hex, hlo, Option.getD_some]
      push_cast
      ring
    · rw [if_neg hex, if_neg hex, hlo, Option.getD_some]
      push_cast
      ring
  have hchi : (if fc.exclusiveMaximum = some true then fc.maximum.getD 100 - 1
      else fc.maximum.getD 100) =
      (((hi - (if fc.exclusiveMaximum = some true then 1 else 0) : Int)) : Rat) := by
    by_cases hex : fc.exclusiveMaximum = some true
    · rw [if_pos hex, if_pos hex, hhi, Option.getD_some]
      push_cast
      ring
    · rw [if_neg hex, if_neg hex, hhi, Option.getD_some]
      push_cast
      ring
  obtain ⟨v, hgen, hdvd, hle, hgt⟩ :=
    generate_integer_spec r hr (lo + (if fc.exclusiveMinimum = some true then 1 else 0))
      (hi - (if fc.exclusiveMaximum = some true then 1 else 0)) m hmpos hrange
  refine ⟨v, ?_, hdvd, hle, hgt⟩
  rw [gfd_integer_branch schemas r fuel fc _ _ href henum htype hclo hchi, hm, hgen]
  simp [intOrNum_intCast]

/-- C3 (counterexample): on `{'type': 'integer', 'minimum': 7, 'maximum': 9,
'multipleOf': 5}` the generator can return 5 — a multiple of 5 but below the
declared minimum 7. -/
theorem C3_counterexample :
    generate_field_data [] minRand 1 fragQty = .ok (.vint 5) ∧ ¬((7 : Int) ≤ 5) := by
  constructor
  · simp +decide only [generate_field_data, resolveRef, fragQty, Frag.ref, Frag.base,
      Frag.enumVals, Frag.type, Frag.minimum, Frag.maximum, Frag.exclusiveMinimum,
      Frag.exclusiveMaximum, Frag.multipleOf, Option.getD_some, ite_true, ite_false]
    norm_num [generate_integer, intOrNum, qmod, minRand]
  · decide

theorem C3_integer_quantization_witness :
    ∃ v : Int, generate_field_data [] minRand 1 fragQty = .ok (.vint v) ∧
      (5 : Int) ∣ v ∧ v ≤ 9 - (if fragQty.exclusiveMaximum = some true then 1 else 0) ∧
      7 + (if fragQty.exclusiveMinimum = some true then 1 else 0) - 5 < v := by
  have h := C3_integer_quantization [] minRand 0 fragQty 7 9 5 rfl rfl rfl rfl rfl rfl
    (by norm_num) ⟨fun a b hab => ⟨le_refl a, hab⟩, fun a b hab => ⟨le_refl a, hab⟩⟩
    (by simp +decide [fragQty])
  exact h
/-- C4 (counterexample): the receiver's validation-model builder raises on
the unrecognized type tag `datetime` instead of falling back to string-like
treatment. -/
theorem C4_counterexample :
    build_nested_model [fdWhen] 1 =
      .error "Unrecognized propety type datetime in field when!" := rfl

/-- C4 (amended): the synthesizer and the table flattener treat an
unrecognized type tag as a string-like primitive and never fail — the
synthesizer falls back to a plain random string, the flattener renders the
raw tag as the field's primitive type — but the receiver's model builder
(`Receiver.parse_type`) raises an exception on the same tag. -/
theorem C4_unknown_type (schemas cat2 : List (String × Frag)) (r : RandomSource)
    (fuel : Nat) (fc : Frag) (t name : String) (tables : Tables) (fd : FieldDescr)
    (href : fc.ref = none) (henum : fc.enumVals = none) (htype : fc.type = some t)
    (hprops : fc.properties = none)
    (hmem : t ∉ ["string", "integer", "number", "float", "boolean", "array", "object"])
    (hmiss : lookupS tables name = none) (hne : t ≠ "") :
    generate_field_data schemas r (fuel + 1) fc = .ok (.vstr (generate_string 10 none none r)) ∧
    parse_schema cat2 (fuel + 1) name fc tables = some (setKey tables name [], t) ∧
    (∃ e, parse_type t fd = .error e) := by
  simp only [List.mem_cons, List.not_mem_nil, or_false, not_or] at hmem
  obtain ⟨h1, h2, h3, h4, h5, h6, h7⟩ := hmem
  refine ⟨?_, ?_, ?_⟩
  · simp only [generate_field_data, resolveRef, href, henum, htype, Option.getD_some]
    rw [if_neg h1, if_neg h2, if_neg (not_or.mpr ⟨h3, h4⟩), if_neg h5, if_neg h6, if_neg h7]
  · simp only [parse_schema, hmiss, Option.isSome_none, Bool.false_eq_true, if_false, href,
      htype, hprops, Option.isNone_none]
    rw [if_neg (by simp [h6]), if_pos (by simp [h7, h6])]
    rw [if_neg hne]
  · exact ⟨_, by rw [parse_type, if_neg h1, if_neg h4, if_neg h2, if_neg h5, if_neg h6,
      if_neg h7]⟩

theorem C4_unknown_type_witness :
    generate_field_data [] minRand 1 unknownFrag =
      .ok (.vstr (generate_string 10 none none minRand)) ∧
    parse_schema [] 1 "X" unknownFrag [] = some (setKey [] "X" [], "datetime") ∧
    (∃ e, parse_type "datetime" fdWhen = .error e) :=
  C4_unknown_type [] [] minRand 0 unknownFrag "datetime" "X" [] fdWhen
    rfl rfl rfl rfl (by decide) rfl (by decide)

/-- C5 (counterexample): flattening a fragment that references the absent
component `Missing` does not fail: `schema_catalog.get(ref_name, {})`
substitutes the empty schema, an empty table is registered under the missing
name, and the rendered type is `unknown`. -/
theorem C5_counterexample :
    parse_schema [] 2 "Body" (refFrag "#/components/schemas/Missing") [] =
      some ([("Body", []), ("Missing", [])], "unknown") := rfl

/-- C5 (amended): only the synthesizer fails hard on a reference to a name
absent from the catalog (`schemas[name]` raises `KeyError`); the table
flattener substitutes the empty schema and returns normally, and the
sender's field extractor walks the unresolved fragment and returns no
fields. -/
theorem C5_unknown_reference (schemas : List (String × Frag)) (r : RandomSource)
    (fuel : Nat) (fc : Frag) (s b parent : String) (rq : List String)
    (href : fc.ref = some s) (habs : lookupS schemas (refTail s) = none)
    (hb : refTail s ≠ b) :
    generate_field_data schemas r (fuel + 1) fc = .error (.keyError (refTail s)) ∧
    parse_schema schemas (fuel + 2) b (refFrag s) [] =
      some ([(b, []), (refTail s, [])], "unknown") ∧
    extract_schema_fields schemas (fuel + 1) (refFrag s) parent rq [] = some [] := by
  refine ⟨?_, ?_, ?_⟩
  · simp only [generate_field_data, resolveRef, href, habs]
  · simp only [parse_schema, lookupS, Option.isSome_none, Bool.false_eq_true, if_false,
      refFrag, Frag.ref, Frag.base, setKey]
    rw [if_neg (Ne.symm hb)]
    simp only [habs, Option.getD_none, Option.isSome_none, Bool.false_eq_true, if_false,
      emptyFrag, Frag.ref, Frag.base, Frag.type, Frag.properties, setKey,
      Option.isNone_none]
    rw [if_neg (Ne.symm hb)]
    simp +decide
  · simp only [extract_schema_fields, refFrag, Frag.ref, Frag.base]
    rw [if_neg (List.not_mem_nil (refTail s))]
    simp only [habs]
    simp +decide [extract_walk, extract_props, Frag.type, Frag.base, Frag.properties,
      Option.getD]

theorem C5_unknown_reference_witness :
    generate_field_data [] minRand 1 (refFrag "#/components/schemas/Missing") =
      .error (.keyError (refTail "#/components/schemas/Missing")) ∧
    parse_schema [] 2 "Body" (refFrag "#/components/schemas/Missing") [] =
      some ([("Body", []), (refTail "#/components/schemas/Missing", [])], "unknown") ∧
    extract_schema_fields [] 1 (refFrag "#/components/schemas/Missing") "" [] [] = some [] :=
  C5_unknown_reference [] minRand 0 (refFrag "#/components/schemas/Missing")
    "#/components/schemas/Missing" "Body" "" [] rfl rfl (by decide)
theorem validateFields_spec (fuel : Nat) (kvs : List (String × Value)) :
    ∀ (fields : List (String × Bool × MType)),
    (∀ f ∈ fields, match lookupS kvs f.1 with
       | some v => ∃ w, validateValue fuel f.2.2 v = .ok w
       | none => f.2.1 = false) →
    ∃ out, validateFields (fun t v => validateValue fuel t v) fields kvs = .ok out ∧
      out.map Prod.fst = fields.map Prod.fst := by
  intro fields
  induction fields with
  | nil => exact fun _ => ⟨[], by simp [validateFields], rfl⟩
  | cons hd tl ih =>
    intro hconf
    obtain ⟨n, req, t⟩ := hd
    have hhd := hconf _ (List.mem_cons_self _ _)
    obtain ⟨out, ho, hk⟩ := ih (fun f hf => hconf f (List.mem_cons_of_mem _ hf))
    cases hl : lookupS kvs n with
    | some v =>
      rw [hl] at hhd
      obtain ⟨w, hw⟩ := hhd
      refine ⟨(n, w) :: out, ?_, by simp [hk]⟩
      simp [validateFields, hl, hw, ho]
    | none =>
      rw [hl] at hhd
      have hreq : req = false := hhd
      refine ⟨(n, .vnull) :: out, ?_, by simp [hk]⟩
      simp [validateFields, hl, hreq, ho]

/-- C10: a payload carrying every declared required field with a conforming
value, plus arbitrary undeclared extra fields, validates successfully, and
the handler's `payload.dict()` result carries exactly the declared fields —
the extras are silently dropped (pydantic v1 default `Extra.ignore`), not
rejected. -/
theorem C10_extra_fields_dropped (fields : List (String × Bool × MType))
    (kvs : List (String × Value)) (fuel : Nat)
    (hconf : ∀ f ∈ fields, match lookupS kvs f.1 with
       | some v => ∃ w, validateValue fuel f.2.2 v = .ok w
       | none => f.2.1 = false) :
    ∃ out, make_handler (.mObj fields) (fuel + 1) (.vobj kvs) =
      .ok (.vobj [("message", .vstr "Valid"), ("data", .vobj out)]) ∧
      out.map Prod.fst = fields.map Prod.fst := by
  obtain ⟨out, ho, hk⟩ := validateFields_spec fuel kvs fields hconf
  refine ⟨out, ?_, hk⟩
  simp [make_handler, validateValue, ho]

theorem C10_extra_fields_dropped_witness :
    ∃ out, make_handler (.mObj modelAge) 2 payloadExtra =
      .ok (.vobj [("message", .vstr "Valid"), ("data", .vobj out)]) ∧
      out.map Prod.fst = modelAge.map Prod.fst := by
  have h := C10_extra_fields_dropped modelAge [("age", .vint 3), ("extra", .vstr "x")] 1
    (by
      intro f hf
      simp only [modelAge, List.mem_singleton] at hf
      subst hf
      simp only [lookupS, if_pos rfl]
      exact ⟨.vint 3, by norm_num [validateValue, checkBounds]⟩)
  simpa [payloadExtra] using h
theorem mem_keysS_setKey {α : Type} : ∀ (l : List (String × α)) (k : String) (v : α) (x : String),
    x ∈ keysS (setKey l k v) ↔ x ∈ keysS l ∨ x = k := by
  intro l k v x
  induction l with
  | nil => simp [setKey, keysS]
  | cons hd tl ih =>
    obtain ⟨k', v'⟩ := hd
    by_cases hk : k' = k
    · subst hk
      simp [setKey, keysS]
      tauto
    · simp [setKey, keysS, hk] at ih ⊢
      tauto

theorem nodup_setKey {α : Type} : ∀ (l : List (String × α)) (k : String) (v : α),
    (keysS l).Nodup → (keysS (setKey l k v)).Nodup := by
  intro l k v h
  induction l with
  | nil => simp [setKey, keysS]
  | cons hd tl ih =>
    obtain ⟨k', v'⟩ := hd
    simp only [keysS, List.map_cons, List.nodup_cons] at h
    by_cases hk : k' = k
    · subst hk
      simpa [setKey, keysS] using h
    · simp only [setKey, if_neg hk, keysS, List.map_cons, List.nodup_cons]
      refine ⟨?_, ih h.2⟩
      intro hmem
      rcases (mem_keysS_setKey tl k v k').mp hmem with hm | hm
      · exact h.1 hm
      · exact hk hm

theorem parse_field_type_nodup (ps : String → Frag → Tables → Option (Tables × String))
    (cat : List (String × Frag)) (field : String) (fd : Frag) (tables t1 : Tables)
    (ft : String)
    (hps : ∀ n s t out, (keysS t).Nodup → ps n s t = some out → (keysS out.1).Nodup)
    (h : (keysS tables).Nodup)
    (hstep : parse_field_type ps cat field fd tables = some (t1, ft)) :
    (keysS t1).Nodup := by
  simp only [parse_field_type] at hstep
  split at hstep
  · exact hps _ _ _ (t1, ft) h hstep
  · split at hstep
    · split at hstep
      · split at hstep
        · rename_i heq
          cases hstep
          exact hps _ _ _ _ h heq
        · cases hstep
      · split at hstep
        · split at hstep
          · rename_i heq
            cases hstep
            exact hps _ _ _ _ h heq
          · cases hstep
        · split at hstep
          · cases hstep
            exact h
          · cases hstep
            exact h
    · split at hstep
      · split at hstep
        · rename_i heq
          cases hstep
          exact hps _ _ _ _ h heq
        · cases hstep
      · cases hstep
        exact h

@[simp] theorem option_bind_some {α β : Type} (a : α) (f : α → Option β) :
    ((some a : Option α) >>= f) = f a := rfl

@[simp] theorem option_bind_none {α β : Type} (f : α → Option β) :
    ((none : Option α) >>= f) = none := rfl

theorem parse_fields_nodup (ps : String → Frag → Tables → Option (Tables × String))
    (cat : List (String × Frag)) (req : List String)
    (hps : ∀ n s t out, (keysS t).Nodup → ps n s t = some out → (keysS out.1).Nodup) :
    ∀ (props : List (String × Frag)) (tables : Tables) (out : Tables × TableFields),
    (keysS tables).Nodup → parse_fields ps cat req props tables = some out →
    (keysS out.1).Nodup := by
  intro props
  induction props with
  | nil =>
    intro tables out h hp
    simp only [parse_fields] at hp
    cases hp
    exact h
  | cons hd tl ih =>
    intro tables out h hp
    obtain ⟨field, fd⟩ := hd
    simp only [parse_fields] at hp
    cases hstep : parse_field_type ps cat field fd tables with
    | none => rw [hstep] at hp; simp at hp
    | some pr =>
      obtain ⟨t1, ft⟩ := pr
      rw [hstep] at hp
      simp only [option_bind_some] at hp
      have h1 := parse_field_type_nodup ps cat field fd tables t1 ft hps h hstep
      cases hrest : parse_fields ps cat req tl t1 with
      | none => rw [hrest] at hp; simp at hp
      | some pr2 =>
        obtain ⟨tF, rows⟩ := pr2
        rw [hrest] at hp
        simp only [option_bind_some] at hp
        cases hp
        exact ih t1 (tF, rows) h1 hrest

theorem parse_schema_nodup (cat : List (String × Frag)) :
    ∀ (fuel : Nat) (name : String) (schema : Frag) (tables : Tables) (out : Tables × String),
    (keysS tables).Nodup → parse_schema cat fuel name schema tables = some out →
    (keysS out.1).Nodup := by
  intro fuel
  induction fuel with
  | zero =>
    intro name schema tables out h hp
    exact Option.noConfusion hp
  | succ fuel ih =>
    intro name schema tables out h hp
    simp only [parse_schema] at hp
    by_cases hmem : (lookupS tables name).isSome
    · rw [if_pos hmem] at hp
      cases hp
      exact h
    · rw [if_neg hmem] at hp
      have h1 : (keysS (setKey tables name [])).Nodup := nodup_setKey _ _ _ h
      cases href : schema.ref with
      | some refStr =>
        simp only [href] at hp
        exact ih _ _ _ _ h1 hp
      | none =>
        simp only [href] at hp
        split at hp
        · split at hp
          · split at hp
            · rename_i heq
              cases hp
              have hres := ih _ _ _ _ h1 heq
              exact hres
            · cases hp
          · split at hp
            · cases hp
              exact h1
            · cases hp
              exact h1
        · split at hp
          · cases hp
            exact h1
          · split at hp
            · rename_i heq
              cases hp
              exact nodup_setKey _ _ _
                (parse_fields_nodup _ cat _ (fun n s t o hh hpp => ih n s t o hh hpp)
                  _ _ _ h1 heq)
            · cases hp

/-- C6: each name is flattened into at most one table.  (1) Re-encountering a
name already in `tables` returns immediately with `tables` unchanged (the
memoization), so no second, different table can be produced for a name.
(2) One flatten pass keeps the table keys duplicate-free. -/
theorem C6_one_table_per_name (cat : List (String × Frag)) :
    (∀ (fuel : Nat) (name : String) (schema : Frag) (tables : Tables),
       (lookupS tables name).isSome →
       parse_schema cat (fuel + 1) name schema tables = some (tables, name)) ∧
    (∀ (fuel : Nat) (name : String) (schema : Frag) (tables : Tables) (out : Tables × String),
       (keysS tables).Nodup → parse_schema cat fuel name schema tables = some out →
       (keysS out.1).Nodup) := by
  constructor
  · intro fuel name schema tables h
    simp [parse_schema, h]
  · exact parse_schema_nodup cat

theorem C6_one_table_per_name_witness :
    parse_schema itemCatalog 1 "T" emptyFrag [("T", [])] = some ([("T", [])], "T") ∧
    (keysS ([("Body", [("first", ("Item", "", false)), ("second", ("Item", "", false))]),
             ("Item", [("id", ("string", "", true))])] : Tables)).Nodup := by
  constructor
  · exact (C6_one_table_per_name itemCatalog).1 0 "T" emptyFrag [("T", [])] rfl
  · exact (C6_one_table_per_name itemCatalog).2 5 "Body" twoRefsFrag []
      ([("Body", [("first", ("Item", "", false)), ("second", ("Item", "", false))]),
        ("Item", [("id", ("string", "", true))])], "Body") (by simp [keysS])
      rfl
theorem fragSize_pos (f : Frag) : 0 < fragSize f := by
  cases f with
  | mk b i p => simp [fragSize]

theorem fragSize_lt_of_mem_props : ∀ (props : List (String × Frag)) (n : String) (f : Frag),
    (n, f) ∈ props → fragSize f < propsSize props := by
  intro props
  induction props with
  | nil => intro n f h; simp at h
  | cons hd tl ih =>
    intro n f h
    obtain ⟨n', f'⟩ := hd
    rcases List.mem_cons.mp h with h | h
    · cases h
      simp [propsSize]
      omega
    · have := ih n f h
      simp [propsSize]
      omega

theorem fragSize_lt_of_properties (sc : Frag) (props : List (String × Frag)) (n : String)
    (f : Frag) (hp : sc.properties = some props) (hm : (n, f) ∈ props) :
    fragSize f < fragSize sc := by
  cases sc with
  | mk b i p =>
    simp only [Frag.properties] at hp
    subst hp
    have h1 := fragSize_lt_of_mem_props props n f hm
    simp [fragSize, optPropsSize]
    omega

theorem propsSize_lt_fragSize (sc : Frag) (props : List (String × Frag))
    (hp : sc.properties = some props) : propsSize props < fragSize sc := by
  cases sc with
  | mk b i p =>
    simp only [Frag.properties] at hp
    subst hp
    simp [fragSize, optPropsSize]
    omega

theorem fragSize_lt_of_items (sc it : Frag) (hp : sc.items = some it) :
    fragSize it < fragSize sc := by
  cases sc with
  | mk b i p =>
    simp only [Frag.items] at hp
    subst hp
    simp [fragSize, optFragSize]
    omega

theorem fragSize_le_maxFragSize : ∀ (schemas : List (String × Frag)) (name : String) (f : Frag),
    lookupS schemas name = some f → fragSize f ≤ maxFragSize schemas := by
  intro schemas
  induction schemas with
  | nil => intro name f h; simp [lookupS] at h
  | cons hd tl ih =>
    intro name f h
    obtain ⟨k, v⟩ := hd
    by_cases hk : k = name
    · subst hk
      simp [lookupS] at h
      subst h
      simp [maxFragSize]
    · simp [lookupS, hk] at h
      calc fragSize f ≤ maxFragSize tl := ih name f h
        _ ≤ _ := by simp [maxFragSize]

theorem length_filter_mono {α : Type} (p q : α → Bool) (hpq : ∀ a, q a = true → p a = true) :
    ∀ (l : List α), (l.filter q).length ≤ (l.filter p).length := by
  intro l
  induction l with
  | nil => simp
  | cons hd tl ih =>
    by_cases hq : q hd = true
    · simp [List.filter, hq, hpq hd hq]
      omega
    · simp only [List.filter, hq]
      by_cases hp : p hd = true
      · simp [hp]
        omega
      · simp [hp]
        exact ih

theorem unvisited_mono (schemas : List (String × Frag)) (x : String) (visited : List String) :
    unvisitedCount schemas (x :: visited) ≤ unvisitedCount schemas visited := by
  refine length_filter_mono _ _ ?_ schemas
  intro kv h
  simp only [decide_eq_true_eq] at h ⊢
  intro hmem
  exact h (List.mem_cons_of_mem _ hmem)

theorem unvisited_lt (schemas : List (String × Frag)) (name : String) (visited : List String)
    (f : Frag) (hl : lookupS schemas name = some f) (hv : name ∉ visited) :
    unvisitedCount schemas (name :: visited) < unvisitedCount schemas visited := by
  induction schemas with
  | nil => simp [lookupS] at hl
  | cons hd tl ih =>
    obtain ⟨k, v⟩ := hd
    by_cases hk : k = name
    · subst hk
      have h1 : unvisitedCount ((k, v) :: tl) (k :: visited) = unvisitedCount tl (k :: visited) := by
        simp [unvisitedCount, List.filter]
      have h2 : unvisitedCount ((k, v) :: tl) visited = unvisitedCount tl visited + 1 := by
        simp [unvisitedCount, List.filter, hv]
      rw [h1, h2]
      have := unvisited_mono tl k visited
      omega
    · simp only [lookupS, if_neg hk] at hl
      have hrec := ih hl
      by_cases hmem : k ∈ visited
      · have h1 : unvisitedCount ((k, v) :: tl) (name :: visited) = unvisitedCount tl (name :: visited) := by
          simp [unvisitedCount, List.filter, List.mem_cons_of_mem _ hmem]
        have h2 : unvisitedCount ((k, v) :: tl) visited = unvisitedCount tl visited := by
          simp [unvisitedCount, List.filter, hmem]
        omega
      · have hkn : k ∉ name :: visited := by
          simp [List.mem_cons, hk, hmem]
        have h1 : unvisitedCount ((k, v) :: tl) (name :: visited) = unvisitedCount tl (name :: visited) + 1 := by
          simp [unvisitedCount, List.filter, hkn]
        have h2 : unvisitedCount ((k, v) :: tl) visited = unvisitedCount tl visited + 1 := by
          simp [unvisitedCount, List.filter, hmem]
        omega

theorem extract_props_isSome
    (recur : Frag → String → List String → List String → Option (List FieldInfo))
    (B : Nat) (v' : List String)
    (H : ∀ f path rq, fragSize f < B → (recur f path rq v').isSome) :
    ∀ (props : List (String × Frag)) (parent : String) (req : List String),
      propsSize props < B →
      (extract_props recur parent req v' props).isSome := by
  intro props
  induction props with
  | nil => intro parent req h; simp [extract_props]
  | cons hd tl ih =>
    intro parent req hsz
    obtain ⟨pn, pf⟩ := hd
    have hpf : fragSize pf < B := by
      have h1 := fragSize_lt_of_mem_props ((pn, pf) :: tl) pn pf (List.mem_cons_self _ _)
      omega
    have htl : propsSize tl < B := by
      simp only [propsSize] at hsz
      omega
    obtain ⟨tres, htres⟩ := Option.isSome_iff_exists.mp (ih parent req htl)
    simp only [extract_props]
    by_cases h1 : pf.type = some "object"
    · obtain ⟨a, ha⟩ := Option.isSome_iff_exists.mp
        (H pf (if parent = "" then pn else parent ++ "." ++ pn) pf.required hpf)
      simp [h1, ha, htres]
    · by_cases h2 : pf.type = some "array"
      · cases hit : pf.items with
        | some it =>
          by_cases h3 : it.type = some "object" ∨ it.ref.isSome
          · have hsz2 : fragSize it < B := lt_trans (fragSize_lt_of_items pf it hit) hpf
            obtain ⟨a, ha⟩ := Option.isSome_iff_exists.mp
              (H it ((if parent = "" then pn else parent ++ "." ++ pn) ++ "[*]")
                it.required hsz2)
            simp [h1, h2, hit, h3, ha, htres]
          · simp [h1, h2, hit, h3, htres]
        | none =>
          have he1 : emptyFrag.type = none := rfl
          have he2 : emptyFrag.ref = none := rfl
          simp [h1, h2, hit, he1, he2, htres]
      · simp [h1, h2, htres]

theorem extract_terminates (schemas : List (String × Frag)) :
    ∀ (fuel : Nat) (sc : Frag) (parent : String) (rq visited : List String),
    extractBound schemas visited sc < fuel →
    (extract_schema_fields schemas fuel sc parent rq visited).isSome := by
  intro fuel
  induction fuel with
  | zero =>
    intro sc parent rq visited hlt
    exact absurd hlt (Nat.not_lt_zero _)
  | succ fuel ih =>
    intro sc parent rq visited hlt
    have hwalk : ∀ (v' : List String),
        unvisitedCount schemas v' ≤ unvisitedCount schemas visited →
        (extract_walk (fun f p rq vs => extract_schema_fields schemas fuel f p rq vs)
          sc parent v').isSome := by
      intro v' hUC
      have H : ∀ (f : Frag) (path : String) (rqx : List String), fragSize f < fragSize sc →
          (extract_schema_fields schemas fuel f path rqx v').isSome := by
        intro f path rqx hsize
        apply ih
        have hmul : unvisitedCount schemas v' * (maxFragSize schemas + 1) ≤
            unvisitedCount schemas visited * (maxFragSize schemas + 1) :=
          Nat.mul_le_mul_right _ hUC
        simp only [extractBound] at hlt ⊢
        omega
      simp only [extract_walk]
      by_cases h1 : sc.type.getD "object" = "object"
      · rw [if_pos h1]
        apply extract_props_isSome _ (fragSize sc) v' H
        cases hpp : sc.properties with
        | some l =>
          simp only [hpp, Option.getD_some]
          exact propsSize_lt_fragSize sc l hpp
        | none =>
          simp only [hpp, Option.getD_none, propsSize]
          exact fragSize_pos sc
      · rw [if_neg h1]
        by_cases h2 : sc.type.getD "object" = "array"
        · rw [if_pos h2]
          cases hit : sc.items with
          | some it =>
            simp only [hit, Option.getD_some]
            by_cases h3 : it.type = some "object" ∨ it.ref.isSome
            · rw [if_pos h3]
              exact H it _ _ (fragSize_lt_of_items sc it hit)
            · rw [if_neg h3]
              simp
          | none =>
            have he1 : emptyFrag.type = none := rfl
            have he2 : emptyFrag.ref = none := rfl
            simp [hit, he1, he2]
        · rw [if_neg h2]
          simp
    simp only [extract_schema_fields]
    cases href : sc.ref with
    | some refPath =>
      simp only []
      by_cases hv : refTail refPath ∈ visited
      · simp [hv]
      · simp only [hv, if_neg]
        cases hcat : lookupS schemas (refTail refPath) with
        | some f =>
          apply ih
          have hUC := unvisited_lt schemas (refTail refPath) visited f hcat hv
          have hsz := fragSize_le_maxFragSize schemas (refTail refPath) f hcat
          have hmul : (unvisitedCount schemas (refTail refPath :: visited) + 1) *
              (maxFragSize schemas + 1) ≤
              unvisitedCount schemas visited * (maxFragSize schemas + 1) :=
            Nat.mul_le_mul_right _ hUC
          rw [Nat.succ_mul] at hmul
          simp only [extractBound] at hlt ⊢
          omega
        | none =>
          apply hwalk
          exact unvisited_mono schemas _ visited
    | none =>
      exact hwalk visited (le_refl _)

/-- The synthesizer follows the `A → properties.self → $ref A` cycle forever:
at every recursion depth it is still recursing, so it returns the
out-of-fuel marker for every fuel. -/
theorem cyclic_gen_exhausts : ∀ (fuel : Nat),
    generate_field_data cyclicCatalog minRand fuel (refFrag "#/components/schemas/A") =
      .error .fuelExhausted := by
  intro fuel
  induction fuel with
  | zero => rfl
  | succ n ih =>
    have step : generate_field_data cyclicCatalog minRand (n + 1)
        (refFrag "#/components/schemas/A") =
        generate_object (fun f => generate_field_data cyclicCatalog minRand n f) fragA := by
      simp +decide [generate_field_data, resolveRef, refFrag, refTail, splitSlash,
        cyclicCatalog, lookupS, fragA, Frag.ref, Frag.base, Frag.enumVals, Frag.type,
        Frag.properties]
    rw [step]
    simp only [generate_object, genProps, fragA, Frag.properties, Option.getD_some]
    simp [ih]

/-- C2 (counterexample): synthesis of the self-referential catalog schema
`A` does not terminate — `DataGenerator.generate_field_data` has no visited
set, so no recursion depth suffices to produce a value. -/
theorem C2_counterexample :
    ¬ ∃ (fuel : Nat) (v : Value),
      generate_field_data cyclicCatalog minRand fuel
        (refFrag "#/components/schemas/A") = .ok v := by
  rintro ⟨fuel, v, hv⟩
  rw [cyclic_gen_exhausts fuel] at hv
  cases hv

/-- C2 (amended): resolution in `Sender.extract_schema_fields` terminates on
every schema, cyclic ones included: (1) the cycle guard fires on an
already-visited reference name and returns no further fields, and (2) any
fuel above `extractBound` (which shrinks with every recursive call) is
enough, so extraction always yields a finite field list.  The synthesizer
(`generate_field_data`), by contrast, has no cycle guard and does not
terminate on such schemas (see the counterexample). -/
theorem C2_extraction_terminates (schemas : List (String × Frag)) :
    (∀ (fuel : Nat) (fc : Frag) (s parent : String) (rq visited : List String),
       fc.ref = some s → refTail s ∈ visited →
       extract_schema_fields schemas (fuel + 1) fc parent rq visited = some []) ∧
    (∀ (fuel : Nat) (sc : Frag) (parent : String) (rq visited : List String),
       extractBound schemas visited sc < fuel →
       (extract_schema_fields schemas fuel sc parent rq visited).isSome) := by
  constructor
  · intro fuel fc s parent rq visited href hv
    simp only [extract_schema_fields, href, if_pos hv]
  · exact extract_terminates schemas

theorem C2_extraction_terminates_witness :
    extract_schema_fields cyclicCatalog 1 (refFrag "#/components/schemas/A") "" [] ["A"]
      = some [] ∧
    (extract_schema_fields cyclicCatalog 10 fragA "" [] []).isSome := by
  constructor
  · exact (C2_extraction_terminates cyclicCatalog).1 0 (refFrag "#/components/schemas/A")
      "#/components/schemas/A" "" [] ["A"] rfl (by decide)
  · exact (C2_extraction_terminates cyclicCatalog).2 10 fragA "" [] []
      (by norm_num [extractBound, unvisitedCount, maxFragSize, cyclicCatalog, fragA,
        refFrag, fragSize, optFragSize, optPropsSize, propsSize, List.filter])

theorem ratNumCast (q : Rat) (h : q.den = 1) : ((q.num : Rat)) = q := by
  have := Rat.num_div_den q
  rw [h] at this
  simpa using this

theorem ratLeNum (q q' : Rat) (h : q.den = 1) (h' : q'.den = 1) (hle : q ≤ q') :
    q.num ≤ q'.num := by
  have h1 : ((q.num : Rat)) ≤ ((q'.num : Rat)) := by
    rw [ratNumCast q h, ratNumCast q' h']
    exact hle
  exact_mod_cast h1

theorem halfEvenInt_ge_floor (y : Rat) : ⌊y⌋ ≤ halfEvenInt y := by
  simp only [halfEvenInt]
  split
  · exact le_refl _
  · split
    · omega
    · split <;> omega

theorem halfEvenInt_le_ceil (y : Rat) : halfEvenInt y ≤ ⌈y⌉ := by
  have hfc : ⌊y⌋ ≤ ⌈y⌉ := Int.floor_le_ceil y
  have hlt : (⌊y⌋ : Rat) ≤ y := Int.floor_le y
  simp only [halfEvenInt]
  split
  · exact hfc
  · rename_i hf
    have hpos : (0 : Rat) < y - ⌊y⌋ := by
      push_neg at hf
      have h2 : (0 : Rat) < 1 / 2 := by norm_num
      exact lt_of_lt_of_le h2 hf
    have hceil : ⌊y⌋ + 1 ≤ ⌈y⌉ := by
      rw [Int.add_one_le_iff, Int.lt_ceil]
      have : (⌊y⌋ : Rat) < y := by linarith
      exact this
    split
    · exact hceil
    · split
      · exact hfc
      · exact hceil

theorem round2_ge (g x : Rat) (hg : (100 * g).den = 1) (hx : g ≤ x) : g ≤ round2 x := by
  have hnum : ((100 * g).num : Rat) = 100 * g := ratNumCast _ hg
  have hfloor : (100 * g).num ≤ ⌊100 * x⌋ := by
    rw [Int.le_floor, hnum]
    linarith
  have h1 : (100 * g).num ≤ halfEvenInt (x * 100) := by
    calc (100 * g).num ≤ ⌊100 * x⌋ := hfloor
      _ = ⌊x * 100⌋ := by ring_nf
      _ ≤ halfEvenInt (x * 100) := halfEvenInt_ge_floor _
  have h2 : ((100 * g : Rat)) ≤ ((halfEvenInt (x * 100) : Int) : Rat) := by
    rw [← hnum]
    exact_mod_cast h1
  rw [round2]
  linarith

theorem round2_le (g x : Rat) (hg : (100 * g).den = 1) (hx : x ≤ g) : round2 x ≤ g := by
  have hnum : ((100 * g).num : Rat) = 100 * g := ratNumCast _ hg
  have hceil : ⌈100 * x⌉ ≤ (100 * g).num := by
    rw [Int.ceil_le, hnum]
    linarith
  have h1 : halfEvenInt (x * 100) ≤ (100 * g).num := by
    calc halfEvenInt (x * 100) ≤ ⌈x * 100⌉ := halfEvenInt_le_ceil _
      _ = ⌈100 * x⌉ := by ring_nf
      _ ≤ (100 * g).num := hceil
  have h2 : ((halfEvenInt (x * 100) : Int) : Rat) ≤ ((100 * g : Rat)) := by
    rw [← hnum]
    exact_mod_cast h1
  rw [round2]
  linarith

theorem parse_type_integer (fd : FieldDescr) :
    parse_type "integer" fd = .ok (.pInt fd.minValue fd.maxValue) := by
  cases hm1 : fd.minValue <;> cases hm2 : fd.maxValue <;>
    simp +decide [parse_type, hm1, hm2]

theorem parse_type_float (fd : FieldDescr) :
    parse_type "float" fd = .ok (.pFloat fd.minValue fd.maxValue) := by
  cases hm1 : fd.minValue <;> cases hm2 : fd.maxValue <;>
    simp +decide [parse_type, hm1, hm2]

theorem childrenOf_nodeFields (node : List PrimSpec) :
    childrenOf (nodeFields node) none = nodeFields node := by
  rw [childrenOf, List.filter_eq_self]
  intro f hf
  simp only [nodeFields, List.mem_map] at hf
  obtain ⟨p, _, rfl⟩ := hf
  simp

theorem build_model_fields_prims
    (recur : Option String → Except String (List (String × Bool × MType)))
    (children : String → List FieldDescr) :
    ∀ (ps : List PrimSpec),
    build_model_fields recur children (nodeFields ps) =
      .ok (ps.map (fun p => (p.pname, p.preq, mtypeOf p))) := by
  intro ps
  induction ps with
  | nil => rfl
  | cons p rest ih =>
    have hstep : nodeFields (p :: rest) =
        { name := p.pname, dataType := p.kind.flatType, parentProperty := none,
          required := p.preq, minValue := p.lo, maxValue := p.hi } :: nodeFields rest := rfl
    rw [hstep]
    cases hk : p.kind
    · simp +decide [build_model_fields, parse_type, PKind.flatType, ptypeToM, ih, mtypeOf, hk]
    · simp +decide [build_model_fields, parse_type_integer, PKind.flatType, ptypeToM, ih,
        mtypeOf, hk]
    · simp +decide [build_model_fields, parse_type_float, PKind.flatType, ptypeToM, ih,
        mtypeOf, hk]
    · simp +decide [build_model_fields, parse_type, PKind.flatType, ptypeToM, ih, mtypeOf, hk]

theorem build_model_nodeFields (node : List PrimSpec) :
    build_model (nodeFields node) 1 none =
      .ok (node.map (fun p => (p.pname, p.preq, mtypeOf p))) := by
  show build_model_fields _ _ _ = _
  rw [childrenOf_nodeFields]
  exact build_model_fields_prims _ _ node

theorem checkBounds_true (ge le : Option Rat) (x : Rat)
    (hge : ∀ g, ge = some g → g ≤ x) (hle : ∀ l, le = some l → x ≤ l) :
    checkBounds ge le x = true := by
  rw [checkBounds.eq_def]
  cases hg : ge with
  | none =>
    cases hl : le with
    | none => rfl
    | some l => simp [hle l hl]
  | some g =>
    cases hl : le with
    | none => simp [hge g hg]
    | some l => simp [hge g hg, hle l hl]

theorem prim_roundtrip (schemas : List (String × Frag)) (r : RandomSource)
    (hr : ValidRand r) (p : PrimSpec) (hwf : WFprim p) :
    ∃ v, generate_field_data schemas r 1 (primFrag p) = .ok v ∧
      ∃ w, validateValue 1 (mtypeOf p) v = .ok w := by
  have href : (primFrag p).ref = none := rfl
  have henum : (primFrag p).enumVals = none := rfl
  have htype : (primFrag p).type = some p.kind.openapiType := rfl
  cases hk : p.kind with
  | kString =>
    rw [hk] at htype
    simp only [WFprim, hk] at hwf
    have hminL : (primFrag p).minLength = p.minLen := rfl
    have hmaxL : (primFrag p).maxLength = p.maxLen := rfl
    refine ⟨.vstr (generate_string
      ((r.randint ((p.minLen.getD 1 : Nat) : Int)
        ((p.maxLen.getD (max 10 (p.minLen.getD 1)) : Nat) : Int)).toNat)
      (primFrag p).pattern (primFrag p).format r), ?_, ?_⟩
    · simp +decide only [generate_field_data, resolveRef, href, henum, htype,
        PKind.openapiType, Option.getD_some, ite_true, ite_false]
      rw [hminL, hmaxL, if_neg (not_lt.mpr hwf)]
    · have hmt : mtypeOf p = .mStr := by simp [mtypeOf, hk]
      rw [hmt]
      exact ⟨_, rfl⟩
  | kBoolean =>
    rw [hk] at htype
    refine ⟨.vbool (r.choiceIdx 2 == 0), ?_, ?_⟩
    · simp +decide only [generate_field_data, resolveRef, href, henum, htype,
        PKind.openapiType, Option.getD_some, ite_true, ite_false]
    · have hmt : mtypeOf p = .mBool := by simp [mtypeOf, hk]
      rw [hmt]
      exact ⟨_, rfl⟩
  | kInteger =>
    rw [hk] at htype
    simp only [WFprim, hk] at hwf
    obtain ⟨hd1, hd2, hle⟩ := hwf
    have hclo : (if (primFrag p).exclusiveMinimum = some true
        then (primFrag p).minimum.getD 1 + 1 else (primFrag p).minimum.getD 1) =
        ((((p.lo.getD 1) + (if p.exMin then 1 else 0)).num : Int) : Rat) := by
      rw [ratNumCast _ hd1]
      cases hx : p.exMin <;> simp [primFrag, Frag.exclusiveMinimum, Frag.minimum, Frag.base, hx]
    have hchi : (if (primFrag p).exclusiveMaximum = some true
        then (primFrag p).maximum.getD 100 - 1 else (primFrag p).maximum.getD 100) =
        ((((p.hi.getD 100) - (if p.exMax then 1 else 0)).num : Int) : Rat) := by
      rw [ratNumCast _ hd2]
      cases hx : p.exMax <;> simp [primFrag, Frag.exclusiveMaximum, Frag.maximum, Frag.base, hx]
    have hnum_le : ((p.lo.getD 1) + (if p.exMin then 1 else 0)).num ≤
        ((p.hi.getD 100) - (if p.exMax then 1 else 0)).num := ratLeNum _ _ hd1 hd2 hle
    have hmul : (primFrag p).multipleOf = none := rfl
    set a := ((p.lo.getD 1) + (if p.exMin then 1 else 0)).num with ha
    set b := ((p.hi.getD 100) - (if p.exMax then 1 else 0)).num with hb
    obtain ⟨hra, hrb⟩ := hr.1 a b hnum_le
    refine ⟨.vint (r.randint a b), ?_, ?_⟩
    · rw [gfd_integer_branch schemas r 0 (primFrag p) a b href henum htype hclo hchi, hmul]
      simp only [generate_integer, if_neg (not_lt.mpr hnum_le)]
      simp [intOrNum_intCast]
    · refine ⟨.vint (r.randint a b), ?_⟩
      simp only [mtypeOf, hk, validateValue]
      rw [if_pos]
      refine checkBounds_true _ _ _ ?_ ?_
      · intro g hg
        have hA : ((a : Int) : Rat) = (p.lo.getD 1) + (if p.exMin then 1 else 0) :=
          ratNumCast _ hd1
        have h1 : g ≤ ((a : Int) : Rat) := by
          rw [hA, hg]
          simp only [Option.getD_some]
          cases p.exMin <;> simp
        have h2 : ((a : Int) : Rat) ≤ ((r.randint a b : Int) : Rat) := by exact_mod_cast hra
        linarith
      · intro l hl
        have hB : ((b : Int) : Rat) = (p.hi.getD 100) - (if p.exMax then 1 else 0) :=
          ratNumCast _ hd2
        have h1 : ((b : Int) : Rat) ≤ l := by
          rw [hB, hl]
          simp only [Option.getD_some]
          cases p.exMax <;> simp [epsQ]
        have h2 : ((r.randint a b : Int) : Rat) ≤ ((b : Int) : Rat) := by exact_mod_cast hrb
        linarith
  | kNumber =>
    rw [hk] at htype
    simp only [WFprim, hk] at hwf
    obtain ⟨hg1, hg2, hle⟩ := hwf
    have hclo : (if (primFrag p).exclusiveMinimum = some true
        then (primFrag p).minimum.getD 1 + epsQ else (primFrag p).minimum.getD 1) =
        (p.lo.getD 1) + (if p.exMin then epsQ else 0) := by
      cases hx : p.exMin <;> simp [primFrag, Frag.exclusiveMinimum, Frag.minimum, Frag.base, hx]
    have hchi : (if (primFrag p).exclusiveMaximum = some true
        then (primFrag p).maximum.getD 100 - epsQ else (primFrag p).maximum.getD 100) =
        (p.hi.getD 100) - (if p.exMax then epsQ else 0) := by
      cases hx : p.exMax <;> simp [primFrag, Frag.exclusiveMaximum, Frag.maximum, Frag.base, hx]
    have hmul : (primFrag p).multipleOf = none := rfl
    obtain ⟨hu1, hu2⟩ := hr.2 _ _ hle
    refine ⟨.vnum (round2 (r.uniform ((p.lo.getD 1) + (if p.exMin then epsQ else 0))
      ((p.hi.getD 100) - (if p.exMax then epsQ else 0)))), ?_, ?_⟩
    · simp +decide only [generate_field_data, resolveRef, href, henum, htype,
        PKind.openapiType, Option.getD_some, ite_true, ite_false]
      rw [hclo, hchi, hmul]
      simp [generate_float]
    · refine ⟨.vnum (round2 (r.uniform ((p.lo.getD 1) + (if p.exMin then epsQ else 0))
        ((p.hi.getD 100) - (if p.exMax then epsQ else 0)))), ?_⟩
      simp only [mtypeOf, hk, validateValue]
      rw [if_pos]
      refine checkBounds_true _ _ _ ?_ ?_
      · intro g hg
        have hgrid : (100 * g).den = 1 := by
          rw [hg] at hg1
          simpa using hg1
        refine round2_ge g _ hgrid ?_
        have h1 : g ≤ (p.lo.getD 1) + (if p.exMin then epsQ else 0) := by
          rw [hg]
          simp only [Option.getD_some]
          cases p.exMin <;> simp [epsQ]
        linarith
      · intro l hl
        have hgrid : (100 * l).den = 1 := by
          rw [hl] at hg2
          simpa using hg2
        refine round2_le l _ hgrid ?_
        have h1 : (p.hi.getD 100) - (if p.exMax then epsQ else 0) ≤ l := by
          rw [hl]
          simp only [Option.getD_some]
          cases p.exMax <;> simp [epsQ]
        linarith

theorem lookupS_skip {α : Type} (n m : String) (v : α) (kvs : List (String × α))
    (h : n ≠ m) : lookupS ((n, v) :: kvs) m = lookupS kvs m := by
  simp [lookupS, h]

theorem validateFields_skip (vt : MType → Value → Except String Value) :
    ∀ (fields : List (String × Bool × MType)) (kvs : List (String × Value))
      (n : String) (v : Value), (∀ f ∈ fields, f.1 ≠ n) →
    validateFields vt fields ((n, v) :: kvs) = validateFields vt fields kvs := by
  intro fields
  induction fields with
  | nil => intro kvs n v _; rfl
  | cons hd tl ih =>
    intro kvs n v hn
    obtain ⟨m, req, t⟩ := hd
    have hm : m ≠ n := hn _ (List.mem_cons_self _ _)
    simp only [validateFields, lookupS_skip n m v kvs (Ne.symm hm),
      ih kvs n v (fun f hf => hn f (List.mem_cons_of_mem _ hf))]

theorem node_roundtrip_fields (schemas : List (String × Frag)) (r : RandomSource)
    (hr : ValidRand r) : ∀ (node : List PrimSpec),
    (node.map (fun p => p.pname)).Nodup → (∀ p ∈ node, WFprim p) →
    ∃ pvs, genProps (fun f => generate_field_data schemas r 1 f)
        (node.map (fun p => (p.pname, primFrag p))) = .ok pvs ∧
      ∃ ws, validateFields (fun t v => validateValue 1 t v)
        (node.map (fun p => (p.pname, p.preq, mtypeOf p))) pvs = .ok ws := by
  intro node
  induction node with
  | nil =>
    intro _ _
    exact ⟨[], rfl, [], rfl⟩
  | cons p rest ih =>
    intro hnd hwf
    simp only [List.map_cons, List.nodup_cons] at hnd
    obtain ⟨hv, hvw, w, hw⟩ :
        ∃ v, generate_field_data schemas r 1 (primFrag p) = .ok v ∧
          ∃ w, validateValue 1 (mtypeOf p) v = .ok w := by
      exact prim_roundtrip schemas r hr p (hwf p (List.mem_cons_self _ _))
    obtain ⟨pvs, hpvs, ws, hws⟩ := ih hnd.2 (fun q hq => hwf q (List.mem_cons_of_mem _ hq))
    refine ⟨(p.pname, hv) :: pvs, ?_, (p.pname, w) :: ws, ?_⟩
    · simp [genProps, hvw, hpvs]
    · have hskip : validateFields (fun t v => validateValue 1 t v)
          (rest.map (fun q => (q.pname, q.preq, mtypeOf q))) ((p.pname, hv) :: pvs) =
          validateFields (fun t v => validateValue 1 t v)
            (rest.map (fun q => (q.pname, q.preq, mtypeOf q))) pvs := by
        refine validateFields_skip _ _ _ _ _ ?_
        intro f hf
        simp only [List.mem_map] at hf
        obtain ⟨q, hq, rfl⟩ := hf
        intro hcontra
        exact hnd.1 (by rw [← hcontra]; exact List.mem_map_of_mem _ hq)
      simp only [List.map_cons, validateFields, lookupS, eq_self_iff_true, ite_true, hw,
        except_bind_ok, hskip, hws]

/-- `ValidRand` holds of the lower-end oracle. -/
theorem minRand_valid : ValidRand minRand :=
  ⟨fun a _ h => ⟨le_refl a, h⟩, fun a _ h => ⟨le_refl a, h⟩⟩

/-- One step of `generate_field_data` on an object fragment. -/
theorem gfd_object_branch (schemas : List (String × Frag)) (r : RandomSource) (fuel : Nat)
    (fc : Frag) (href : fc.ref = none) (henum : fc.enumVals = none)
    (htype : fc.type = some "object") :
    generate_field_data schemas r (fuel + 1) fc =
      generate_object (fun f => generate_field_data schemas r fuel f) fc := by
  simp +decide only [generate_field_data, resolveRef, href, henum, htype, Option.getD_some,
    ite_true, ite_false]

/-- C1 (amended): for every object SchemaNode of primitive properties with
distinct names whose numeric constraints are well-formed — integer bounds
integral with a nonempty shifted range and no `multipleOf`, number bounds on
the `round(·, 2)` grid with a nonempty shifted range and no `multipleOf` —
the value synthesized from the OpenAPI rendering validates against the model
the receiver builds from the flat rendering of the same node. -/
theorem C1_roundtrip (node : List PrimSpec) (r : RandomSource)
    (hwf : WFnode node) (hr : ValidRand r) :
    ∃ M v w, build_nested_model (nodeFields node) 1 = .ok (.mObj M) ∧
      generate_field_data [] r 2 (nodeFrag node) = .ok v ∧
      validateValue 2 (.mObj M) v = .ok w := by
  obtain ⟨hnd, hwfp⟩ := hwf
  obtain ⟨pvs, hpvs, ws, hws⟩ := node_roundtrip_fields [] r hr node hnd hwfp
  refine ⟨node.map (fun p => (p.pname, p.preq, mtypeOf p)), .vobj pvs, .vobj ws, ?_, ?_, ?_⟩
  · rw [build_nested_model, build_model_nodeFields]
    rfl
  · have href : (nodeFrag node).ref = none := rfl
    have henum : (nodeFrag node).enumVals = none := rfl
    have htype : (nodeFrag node).type = some "object" := rfl
    have hprops : (nodeFrag node).properties =
        some (node.map (fun p => (p.pname, primFrag p))) := rfl
    rw [gfd_object_branch [] r 1 (nodeFrag node) href henum htype]
    simp only [generate_object, hprops, Option.getD_some]
    rw [hpvs]
    rfl
  · show (validateFields (fun t v => validateValue 1 t v)
      (node.map (fun p => (p.pname, p.preq, mtypeOf p))) pvs).map Value.vobj = _
    rw [hws]
    rfl

/-- C1 (counterexample): on the node `qty : integer, minimum 7, maximum 9,
multipleOf 5` the synthesizer can produce `{"qty": 5}` (quantization
undershoots the minimum), and validating that value against the same node's
model fails with a bounds violation. -/
theorem C1_counterexample :
    generate_field_data [] minRand 2 objQty = .ok (.vobj [("qty", .vint 5)]) ∧
    build_nested_model fieldsQty 1 = .ok (.mObj [("qty", true, .mInt (some 7) (some 9))]) ∧
    validateValue 2 (.mObj [("qty", true, .mInt (some 7) (some 9))])
      (.vobj [("qty", .vint 5)]) = .error "bound violated" := by
  refine ⟨gen_objQty, rfl, ?_⟩
  simp only [validateValue, validateFields, lookupS, eq_self_iff_true, ite_true]
  have hcb : checkBounds (some 7) (some 9) ((5 : Int) : Rat) = false := by
    simp [checkBounds]
    norm_num
  rw [hcb]
  rfl

theorem C1_roundtrip_witness :
    ∃ M v w, build_nested_model (nodeFields nodeW) 1 = .ok (.mObj M) ∧
      generate_field_data [] minRand 2 (nodeFrag nodeW) = .ok v ∧
      validateValue 2 (.mObj M) v = .ok w := by
  refine C1_roundtrip nodeW minRand ⟨?_, ?_⟩ minRand_valid
  · decide
  · intro p hp
    fin_cases hp <;> norm_num [WFprim, nodeW, epsQ]
